import Mathlib

/-!
# Parking Assistance Simulator (hello.c): embedding and verified properties

The C program reads or generates distance readings, classifies each one,
draws a text bar for it and appends it to a CSV log.

Modelling choices.

* A value of the C type float is a Flt: a finite value (the exact rational it
  denotes), negative zero, an infinity or a NaN, the last two with their sign.
  Every float operation of the source (the division by 200.0f and the
  multiplication by max_bar in print_distance_bar) is the exact operation
  followed by F32.round, IEEE-754 binary32 rounding to nearest, ties to even
  (each operation evaluated in the format of its type), with overflow to
  infinity and the sign kept on a zero result. Comparisons and the constants
  0, 50.0f, 100.0f, 200.0f are exact.
* The functions classify_distance and print_distance_bar are embedded twice:
  on a finite distance given as a rational (print_distance_bar.filled and so
  on, stated over all rationals, of which the binary32 values are a subset),
  and on every Flt (Flt.classify_distance, Flt.filled,
  Flt.print_distance_bar), which is what the session calls. The two agree on
  finite values (flt_classify_distance_fin, flt_filled_fin).
* The conversion (int) of a float truncates toward zero and has no defined
  result outside the range of a 32-bit int, nor on an infinity or a NaN: it
  returns an Option.
* The standard library is summarised by what each call delivers: the result
  of scanf("%d") is an Option Int; standard input in manual mode is the list
  of items (Entry) successive calls of scanf("%f") meet, each either a number
  the call converts to a float (NaN and the infinities included) or text on
  which the conversion fails and which the getchar loop then discards to the
  end of its line; the clock is a stream of timestamp strings; fopen(.., "a")
  and rand() are streams of outcomes. Standard output, standard error and the
  log file are the exact text written.
* A loop that may run for ever is followed for a bounded number of passes
  (fuel); Outcome.running is the state reached when the passes are used up.
-/

namespace ParkingAssist

/-! ## Single-precision arithmetic -/

/-- Nearest integer to a rational, a tie going to the even neighbour. -/
def roundHalfEven (x : ℚ) : ℤ :=
  if x - ⌊x⌋ < 1 / 2 then ⌊x⌋
  else if 1 / 2 < x - ⌊x⌋ then ⌊x⌋ + 1
  else if ⌊x⌋ % 2 = 0 then ⌊x⌋ else ⌊x⌋ + 1

/-- Binary32 rounding of an exact result: 24 significant bits at the binade of
the value, the exponent held at -126 below the normal range (subnormals),
nearest value, ties to even. -/
def F32.round (q : ℚ) : ℚ :=
  if q = 0 then 0
  else
    let e := max (Int.log 2 |q|) (-126)
    roundHalfEven (q / 2 ^ (e - 23)) * 2 ^ (e - 23)

/-- C conversion of a finite floating value to int: the fractional part is
discarded (truncation toward zero); undefined when the integral part is not a
32-bit int. -/
def toInt (x : ℚ) : Option ℤ :=
  let t : ℤ := if 0 ≤ x then ⌊x⌋ else ⌈x⌉
  if -2147483648 ≤ t ∧ t ≤ 2147483647 then some t else none

/-! ## classify_distance on a finite distance -/

/-- Source lines 51-56, on a finite distance. -/
def classify_distance (d : ℚ) : String :=
  if d < 0 then "INVALID"
  else if d < 50 then "STOP"
  else if d < 100 then "CAUTION"
  else "SAFE"

/-! ## print_distance_bar on a finite distance -/

/-- The float expression (capped / 200.0f) * max_bar of print_distance_bar
(source lines 61-67), after the cap at 200.0f; max_bar is converted to float. -/
def print_distance_bar.product (d : ℚ) : ℚ :=
  let max_bar : ℤ := 40
  let capped : ℚ := if d > 200 then 200 else d
  F32.round (F32.round (capped / 200) * (max_bar : ℚ))

/-- The value assigned to the local variable filled of print_distance_bar
(source line 67): the product converted to int. -/
def print_distance_bar.filled (d : ℚ) : Option ℤ :=
  toInt (print_distance_bar.product d)

/-- The loop for (i = from; i < bound; ++i) putchar(c): the characters written. -/
def putchar_loop (c : Char) (i bound : ℤ) : List Char :=
  if i < bound then c :: putchar_loop c (i + 1) bound else []
termination_by (bound - i).toNat
decreasing_by omega

/-- Source lines 59-73: the text print_distance_bar writes to standard output,
none when the conversion to int is undefined. -/
def print_distance_bar (d : ℚ) : Option String :=
  let max_bar : ℤ := 40
  match print_distance_bar.filled d with
  | none => none
  | some filled =>
    some ("[" ++ String.mk (putchar_loop '#' 0 filled)
        ++ String.mk (putchar_loop ' ' filled max_bar) ++ "] \n")

/-! ## Every float value -/

/-- A value of the C type float. -/
inductive Flt where
  /-- A finite value other than negative zero, as the rational it denotes. -/
  | fin (q : ℚ)
  /-- The value -0.0f. -/
  | negzero
  /-- An infinity, negative when neg is true. -/
  | inf (neg : Bool)
  /-- A NaN, with its sign bit. -/
  | nan (neg : Bool)
  deriving DecidableEq

/-- The comparison d < c with a finite constant c: false on a NaN. -/
def Flt.lt (d : Flt) (c : ℚ) : Bool :=
  match d with
  | Flt.fin q => decide (q < c)
  | Flt.negzero => decide (0 < c)
  | Flt.inf neg => neg
  | Flt.nan _ => false

/-- The comparison d > c with a finite constant c: false on a NaN. -/
def Flt.gt (d : Flt) (c : ℚ) : Bool :=
  match d with
  | Flt.fin q => decide (c < q)
  | Flt.negzero => decide (c < 0)
  | Flt.inf neg => !neg
  | Flt.nan _ => false

/-- Whether the value is a NaN. -/
def Flt.is_nan (d : Flt) : Bool :=
  match d with
  | Flt.nan _ => true
  | _ => false

/-- The float an operation delivers whose exact result is x and whose sign is
neg: the rounded value, an infinity past the largest finite value, and a zero
with the sign of the result. -/
def Flt.result (neg : Bool) (x : ℚ) : Flt :=
  if 340282366920938463463374607431768211456 ≤ |F32.round x| then Flt.inf neg
  else if F32.round x = 0 then (if neg then Flt.negzero else Flt.fin 0)
  else Flt.fin (F32.round x)

/-- The quotient d / c by a finite constant c > 0 (the source divides by
200.0f). -/
def Flt.div (d : Flt) (c : ℚ) : Flt :=
  match d with
  | Flt.fin q => Flt.result (decide (q < 0)) (q / c)
  | Flt.negzero => Flt.negzero
  | Flt.inf neg => Flt.inf neg
  | Flt.nan neg => Flt.nan neg

/-- The product d * c by a finite constant c > 0 (the source multiplies by
max_bar, 40). -/
def Flt.mul (d : Flt) (c : ℚ) : Flt :=
  match d with
  | Flt.fin q => Flt.result (decide (q < 0)) (q * c)
  | Flt.negzero => Flt.negzero
  | Flt.inf neg => Flt.inf neg
  | Flt.nan neg => Flt.nan neg

/-- The conversion (float) of an int. -/
def Flt.of_int (n : ℤ) : Flt := Flt.result (decide (n < 0)) (n : ℚ)

/-- C conversion of a float to int: truncation toward zero, undefined on an
infinity, on a NaN and outside the range of a 32-bit int. -/
def Flt.toInt (d : Flt) : Option ℤ :=
  match d with
  | Flt.fin q => ParkingAssist.toInt q
  | Flt.negzero => some 0
  | Flt.inf _ => none
  | Flt.nan _ => none

/-- Source lines 51-56, on any float: every comparison with a NaN is false. -/
def Flt.classify_distance (d : Flt) : String :=
  if d.lt 0 then "INVALID"
  else if d.lt 50 then "STOP"
  else if d.lt 100 then "CAUTION"
  else "SAFE"

/-- The value assigned to the local variable filled of print_distance_bar
(source lines 61-67), on any float. -/
def Flt.filled (d : Flt) : Option ℤ :=
  let max_bar : ℤ := 40
  let capped : Flt := if d.gt 200 then Flt.fin 200 else d
  ((capped.div 200).mul (max_bar : ℚ)).toInt

/-- Source lines 59-73 on any float: the text print_distance_bar writes to
standard output, none when the conversion to int is undefined. -/
def Flt.print_distance_bar (d : Flt) : Option String :=
  let max_bar : ℤ := 40
  match Flt.filled d with
  | none => none
  | some filled =>
    some ("[" ++ String.mk (putchar_loop '#' 0 filled)
        ++ String.mk (putchar_loop ' ' filled max_bar) ++ "] \n")

/-! ## Formatting and the log file -/

/-- The digits printf writes for the magnitude of a finite value under %.2f:
integer part, a point and exactly two decimals, the magnitude rounded to the
nearest hundredth (ties to even). -/
def two_decimals (magnitude : ℚ) : String :=
  let n : ℕ := (roundHalfEven (magnitude * 100)).toNat
  toString (n / 100) ++ "." ++ toString (n / 10 % 10) ++ toString (n % 10)

/-- The conversion %.2f of printf on a float: a minus sign on a negative value,
negative zero included, then two_decimals of the magnitude; inf and nan, with
their sign, for the values that are no numbers. -/
def fmt_2f (d : Flt) : String :=
  match d with
  | Flt.fin q => (if q < 0 then "-" else "") ++ two_decimals |q|
  | Flt.negzero => "-" ++ two_decimals 0
  | Flt.inf neg => (if neg then "-" else "") ++ "inf"
  | Flt.nan neg => (if neg then "-" else "") ++ "nan"

/-- The header record main writes when it creates the log file (line 84). -/
def log_header : String := "timestamp,distance_cm\n"

/-- The record log_reading writes (line 46): format "%s,%.2f\n". -/
def log_record (timestamp : String) (distance_cm : Flt) : String :=
  timestamp ++ "," ++ fmt_2f distance_cm ++ "\n"

/-- Source lines 40-48. The file is none when it does not exist and otherwise
its text; opened tells whether fopen(filename, "a") succeeds. The result is the
file afterwards and the text written to standard error. Opening for append
creates a file that does not exist. -/
def log_reading (opened : Bool) (file : Option String) (timestamp : String)
    (distance_cm : Flt) : Option String × String :=
  if opened then
    (some (file.getD "" ++ log_record timestamp distance_cm), "")
  else
    (file, "Warning: could not open log file parking_log.csv for writing.\n")

/-- Source lines 79-89: the log file after startup. fopen(logfile, "r") fails
on a file that does not exist, and on one that exists when opened_r is false
(a file that cannot be read); created tells whether fopen(logfile, "w") then
succeeds, which empties an existing file before the header is written. -/
def init_log (opened_r created : Bool) (file : Option String) : Option String :=
  match file with
  | some text =>
    if opened_r then some text
    else if created then some log_header
    else some text
  | none => if created then some log_header else none

/-! ## The session -/

/-- One item of standard input as a call of scanf("%f") meets it in manual
mode: a number the call converts to the float d, or text on which the
conversion fails and which the getchar loop discards to the end of its line. -/
inductive Entry where
  | num (d : Flt)
  | junk
  deriving DecidableEq

/-- The program state together with the environment it still has to consume. -/
structure State where
  /-- Items of standard input not read yet; the empty list is end of input. -/
  stdin : List Entry
  /-- Text written to standard output so far. -/
  stdout : String
  /-- Text written to standard error so far. -/
  stderr : String
  /-- The file parking_log.csv, none when it does not exist. -/
  log : Option String
  /-- Whether fopen(logfile, "r") succeeds on the file when it exists. -/
  fopen_r : Bool
  /-- What the coming calls of current_timestamp deliver, the next one first. -/
  clock : ℕ → String
  /-- Whether the coming calls of fopen(filename, "a") succeed. -/
  fopen_a : ℕ → Bool
  /-- What the coming calls of rand() return. -/
  rand : ℕ → ℕ
  /-- Milliseconds spent in sleep_ms. -/
  slept : ℕ
  /-- Instrumentation: the distances handed to classify_distance,
  print_distance_bar and log_reading so far, the latest last. -/
  trace : List Flt

/-- A stream without its first k elements. -/
def drop_stream {α : Type} (k : ℕ) (f : ℕ → α) : ℕ → α := fun n => f (n + k)

/-- Append text to standard output (printf, putchar). -/
def State.print (s : State) (text : String) : State :=
  { s with stdout := s.stdout ++ text }

/-- The line printf("[%s] Distance: %.2f cm -> %s\n", ts, dist, status) writes. -/
def reading_line (ts : String) (dist : Flt) (status : String) : String :=
  "[" ++ ts ++ "] Distance: " ++ fmt_2f dist ++ " cm -> " ++ status ++ "\n"

/-- Source lines 33-37: the timestamp string the clock delivers, and the clock
moved on to its next instant. -/
def current_timestamp (s : State) : String × State :=
  (s.clock 0, { s with clock := drop_stream 1 s.clock })

/-- Source lines 24-30. -/
def sleep_ms (milliseconds : ℕ) (s : State) : State :=
  { s with slept := s.slept + milliseconds }

/-- Source lines 121-126 and, word for word, 141-146: classify, take the
timestamp, print the line, draw the bar, log. None when the bar is undefined. -/
def process_reading (s : State) (dist : Flt) : Option State :=
  let status := Flt.classify_distance dist
  let ts := (current_timestamp s).1
  let s1 := (current_timestamp s).2.print (reading_line ts dist status)
  match Flt.print_distance_bar dist with
  | none => none
  | some bar =>
    let s2 := s1.print bar
    let r := log_reading (s2.fopen_a 0) s2.log ts dist
    some { s2 with
      log := r.1
      stderr := s2.stderr ++ r.2
      fopen_a := drop_stream 1 s2.fopen_a
      trace := s2.trace ++ [dist] }

/-- How one pass through a loop body ends. -/
inductive Step where
  | next (s : State)
  | leave (s : State)
  | undefined

/-- One pass through the body of the manual loop, source lines 108-126. At end
of input scanf returns EOF and getchar returns EOF at once. -/
def manual_step (s : State) : Step :=
  let s := s.print "Enter distance (cm): "
  match s.stdin with
  | [] => Step.next (s.print "Please enter a number.\n")
  | Entry.junk :: rest =>
    Step.next ({ s with stdin := rest }.print "Please enter a number.\n")
  | Entry.num dist :: rest =>
    let s := { s with stdin := rest }
    if dist.lt 0 then Step.leave (s.print "Exiting manual mode.\n")
    else
      match process_reading s dist with
      | none => Step.undefined
      | some s => Step.next s

/-- The distance the automatic loop generates (lines 136-140) from the coming
outputs of rand(), with the number of outputs used; each int is converted to
float. -/
def generate (rand : ℕ → ℕ) : Flt × ℕ :=
  let base : Flt := Flt.of_int ((rand 0 % 241 + 10 : ℕ) : ℤ)
  if rand 1 % 10 < 3 then (Flt.of_int ((rand 2 % 80 : ℕ) : ℤ), 3)
  else (base, 2)

/-- One pass through the body of the automatic loop, source lines 134-147. -/
def auto_step (s : State) : Step :=
  let g := generate s.rand
  let s := { s with rand := drop_stream g.2 s.rand }
  match process_reading s g.1 with
  | none => Step.undefined
  | some s => Step.next (sleep_ms 800 s)

/-- What is known of a run after a bounded number of loop passes. -/
inductive Outcome where
  | exit (status : ℤ) (s : State)
  | running (s : State)
  | undefined

/-- The loop while (1) { body }, run for at most fuel passes; after is what
follows the loop when the body leaves it by break. -/
def while_loop (body : State → Step) (after : State → Outcome) :
    ℕ → State → Outcome
  | 0, s => Outcome.running s
  | fuel + 1, s =>
    match body s with
    | Step.next s1 => while_loop body after fuel s1
    | Step.leave s1 => after s1
    | Step.undefined => Outcome.undefined

/-- The banner and the mode menu (lines 91-99). -/
def banner : String :=
  "\n========================================\n"
    ++ "   ||  PARKING ASSISTANCE SIMULATOR  ||\n"
    ++ "   ||            (C Code)            ||\n"
    ++ "========================================\n\n"
    ++ "Choose mode:\n 1) Manual input\n 2) Automatic simulation\n"
    ++ "Enter choice (1 or 2): "

/-- Lines 154-155: the code after the loops. -/
def finish (s : State) : Outcome :=
  Outcome.exit 0 (s.print "Simulation ended. Log file: parking_log.csv\n")

/-- Source lines 75-156. created is the outcome of fopen(logfile, "w"), mode
what scanf("%d", &mode) delivers (none when it does not return 1), fuel the
number of loop passes followed. -/
def main (fuel : ℕ) (created : Bool) (mode : Option ℤ) (s : State) : Outcome :=
  let s := { s with log := init_log s.fopen_r created s.log }
  let s := s.print banner
  match mode with
  | none => Outcome.exit 1 { s with stderr := s.stderr ++ "Invalid input. Exiting.\n" }
  | some mode =>
    if mode = 1 then
      while_loop manual_step finish fuel
        (s.print "Manual mode selected. Enter distance in cm (negative to exit).\n")
    else if mode = 2 then
      while_loop auto_step finish fuel
        (s.print "Automatic simulation mode. Press Ctrl+C to stop.\n")
    else Outcome.exit 1 (s.print "Invalid choice. Exiting.\n")

/-! ## What the specification expects of a manual session -/

/-- An entry that is a negative number. -/
def Entry.negative : Entry → Bool
  | Entry.num d => d.lt 0
  | Entry.junk => false

/-- The number of a numeric entry. -/
def Entry.reading : Entry → Option Flt
  | Entry.num d => some d
  | Entry.junk => none

/-- The readings of a manual session in the words of the specification: the
numeric entries that come before the first negative number, in input order. -/
def expected_readings (entries : List Entry) : List Flt :=
  (entries.takeWhile (fun e => !e.negative)).filterMap Entry.reading

/-- The log records of a list of readings in the words of the specification,
timestamp, a comma, the distance under %.2f and a newline, the k-th stamped
with the k-th timestamp of the clock. -/
def expected_records (clock : ℕ → String) : List Flt → String
  | [] => ""
  | d :: ds =>
    clock 0 ++ "," ++ fmt_2f d ++ "\n" ++ expected_records (drop_stream 1 clock) ds

/-- The log file after log_reading has been called for each reading of a list
in turn, the k-th call with the k-th timestamp and the k-th outcome of fopen. -/
def append_records (fopen_a : ℕ → Bool) (clock : ℕ → String) (file : Option String) :
    List Flt → Option String
  | [] => file
  | d :: ds =>
    append_records (drop_stream 1 fopen_a) (drop_stream 1 clock)
      (log_reading (fopen_a 0) file (clock 0) d).1 ds

/-- The bar in the words of the specification: an opening bracket, the fill
count in fill characters, blanks up to 40 cells, a closing bracket, then the
blank and the newline of the source. -/
def expected_bar (fill : ℤ) : String :=
  "[" ++ String.mk (List.replicate fill.toNat '#' ++ List.replicate (40 - fill).toNat ' ')
    ++ "]" ++ " \n"

/-- The dialogue of a manual session in the words of the specification, entry by
entry up to the first negative number: the prompt, then for a non-numeric entry
the request to enter a number, for a number that is not negative the line
"[timestamp] Distance: distance cm -> status" with the status
classify_distance gives it and its bar, for a negative number the farewell. -/
def expected_display (clock : ℕ → String) : List Entry → String
  | [] => ""
  | Entry.junk :: es =>
    "Enter distance (cm): " ++ "Please enter a number.\n" ++ expected_display clock es
  | Entry.num d :: es =>
    if d.lt 0 then "Enter distance (cm): " ++ "Exiting manual mode.\n"
    else
      "Enter distance (cm): "
        ++ ("[" ++ clock 0 ++ "] Distance: " ++ fmt_2f d ++ " cm -> "
          ++ Flt.classify_distance d ++ "\n")
        ++ expected_bar ((Flt.filled d).getD 0)
        ++ expected_display (drop_stream 1 clock) es

/-- The text of a file made of the given lines, each ended by a newline. -/
def store_text : List String → String
  | [] => ""
  | l :: ls => l ++ "\n" ++ store_text ls

/-- Two states that agree on everything but the log file, standard error and
the outcomes of the fopen calls. -/
def same_session (s1 s2 : State) : Prop :=
  s1.stdin = s2.stdin ∧ s1.stdout = s2.stdout ∧ s1.clock = s2.clock ∧
    s1.rand = s2.rand ∧ s1.slept = s2.slept ∧ s1.trace = s2.trace

/-- Two outcomes of the same kind, with the same exit status, whose states agree
on everything but the log file, standard error and the fopen outcomes. -/
def Outcome.same_session : Outcome → Outcome → Prop
  | Outcome.exit c1 s1, Outcome.exit c2 s2 => c1 = c2 ∧ ParkingAssist.same_session s1 s2
  | Outcome.running s1, Outcome.running s2 => ParkingAssist.same_session s1 s2
  | Outcome.undefined, Outcome.undefined => True
  | _, _ => False

/-- The state an outcome carries, if any. -/
def Outcome.state : Outcome → Option State
  | Outcome.exit _ s => some s
  | Outcome.running s => some s
  | Outcome.undefined => none

/-- A state for examples: the entries "abc", "30", "-1", no log file yet, a
clock standing at one instant, every fopen succeeding. -/
def demo_state : State :=
  { stdin := [Entry.junk, Entry.num (Flt.fin 30), Entry.num (Flt.fin (-1))]
    stdout := ""
    stderr := ""
    log := none
    fopen_r := true
    clock := fun _ => "2024-05-01 12:00:00"
    fopen_a := fun _ => true
    rand := fun n => 7 * n + 3
    slept := 0
    trace := [] }

/-! ## Classifier lemma -/

theorem classify_distance_invalid_iff (d : ℚ) : classify_distance d = "INVALID" ↔ d < 0 := by
  unfold classify_distance
  by_cases h0 : d < 0
  · simp [h0]
  · by_cases h50 : d < 50
    · simp [h0, h50]
    · by_cases h100 : d < 100 <;> simp [h0, h50, h100]
/-! ## Rounding lemmas -/

theorem floor_le_roundHalfEven (x : ℚ) : ⌊x⌋ ≤ roundHalfEven x := by
  unfold roundHalfEven
  split_ifs <;> omega

theorem roundHalfEven_le_floor_succ (x : ℚ) : roundHalfEven x ≤ ⌊x⌋ + 1 := by
  unfold roundHalfEven
  split_ifs <;> omega

theorem roundHalfEven_intCast (n : ℤ) : roundHalfEven (n : ℚ) = n := by
  unfold roundHalfEven
  simp

theorem le_roundHalfEven {x : ℚ} {n : ℤ} (h : (n : ℚ) ≤ x) : n ≤ roundHalfEven x :=
  le_trans (Int.le_floor.mpr h) (floor_le_roundHalfEven x)

theorem roundHalfEven_le {x : ℚ} {n : ℤ} (h : x ≤ (n : ℚ)) : roundHalfEven x ≤ n := by
  rcases eq_or_lt_of_le h with h1 | h1
  · rw [h1, roundHalfEven_intCast]
  · have h2 : ⌊x⌋ < n := Int.floor_lt.mpr h1
    have h3 := roundHalfEven_le_floor_succ x
    omega

theorem roundHalfEven_mono {x y : ℚ} (h : x ≤ y) : roundHalfEven x ≤ roundHalfEven y := by
  rcases eq_or_lt_of_le (Int.floor_mono h) with h1 | h1
  · unfold roundHalfEven
    rw [h1]
    split_ifs <;> first | omega | linarith
  · have h2 := roundHalfEven_le_floor_succ x
    have h3 := floor_le_roundHalfEven y
    omega

theorem roundHalfEven_neg (x : ℚ) : roundHalfEven (-x) = -roundHalfEven x := by
  by_cases hx : (⌊x⌋ : ℚ) = x
  · rw [← hx, ← Int.cast_neg, roundHalfEven_intCast, roundHalfEven_intCast]
  · have h1 : (⌊x⌋ : ℚ) < x := lt_of_le_of_ne (Int.floor_le x) hx
    have h2 : x < ⌊x⌋ + 1 := Int.lt_floor_add_one x
    have h3 : ⌊-x⌋ = -⌊x⌋ - 1 := by
      rw [Int.floor_eq_iff]
      push_cast
      constructor <;> linarith
    unfold roundHalfEven
    rw [h3]
    push_cast
    split_ifs <;> first | omega | linarith

theorem grid_round_le {x : ℚ} {e : ℤ} (hx : x ≤ 2 ^ (e + 1)) :
    (roundHalfEven (x / 2 ^ (e - 23)) : ℚ) * 2 ^ (e - 23) ≤ 2 ^ (e + 1) := by
  have hu : (0 : ℚ) < 2 ^ (e - 23) := by positivity
  have h24 : (2 : ℚ) ^ (e + 1) = ((16777216 : ℤ) : ℚ) * 2 ^ (e - 23) := by
    have : e + 1 = 24 + (e - 23) := by ring
    rw [this, zpow_add₀ (by norm_num : (2 : ℚ) ≠ 0)]
    norm_num
  have h1 : x / 2 ^ (e - 23) ≤ ((16777216 : ℤ) : ℚ) := by
    rw [div_le_iff₀ hu, ← h24]
    exact hx
  have h2 : (roundHalfEven (x / 2 ^ (e - 23)) : ℚ) ≤ ((16777216 : ℤ) : ℚ) := by
    exact_mod_cast roundHalfEven_le h1
  rw [h24]
  exact mul_le_mul_of_nonneg_right h2 hu.le

theorem le_grid_round {x : ℚ} {e : ℤ} (hx : 2 ^ e ≤ x) :
    (2 : ℚ) ^ e ≤ (roundHalfEven (x / 2 ^ (e - 23)) : ℚ) * 2 ^ (e - 23) := by
  have hu : (0 : ℚ) < 2 ^ (e - 23) := by positivity
  have h23 : (2 : ℚ) ^ e = ((8388608 : ℤ) : ℚ) * 2 ^ (e - 23) := by
    have : e = 23 + (e - 23) := by ring
    nth_rewrite 1 [this]
    rw [zpow_add₀ (by norm_num : (2 : ℚ) ≠ 0)]
    norm_num
  have h1 : ((8388608 : ℤ) : ℚ) ≤ x / 2 ^ (e - 23) := by
    rw [le_div_iff₀ hu, ← h23]
    exact hx
  have h2 : ((8388608 : ℤ) : ℚ) ≤ (roundHalfEven (x / 2 ^ (e - 23)) : ℚ) := by
    exact_mod_cast le_roundHalfEven h1
  rw [h23]
  exact mul_le_mul_of_nonneg_right h2 hu.le

theorem F32.round_neg (q : ℚ) : F32.round (-q) = -F32.round q := by
  unfold F32.round
  by_cases h : q = 0
  · simp [h]
  · have h1 : -q ≠ 0 := neg_ne_zero.mpr h
    simp only [h, h1, if_false, abs_neg, neg_div, roundHalfEven_neg]
    push_cast
    ring

theorem F32.round_nonneg {q : ℚ} (h : 0 ≤ q) : 0 ≤ F32.round q := by
  unfold F32.round
  split_ifs with h0
  · exact le_refl 0
  · have h1 : (0 : ℚ) ≤ q / 2 ^ (max (Int.log 2 |q|) (-126) - 23) := by positivity
    have h2 : (0 : ℤ) ≤ roundHalfEven (q / 2 ^ (max (Int.log 2 |q|) (-126) - 23)) :=
      le_roundHalfEven (by exact_mod_cast h1)
    have h3 : (0 : ℚ) ≤ (roundHalfEven (q / 2 ^ (max (Int.log 2 |q|) (-126) - 23)) : ℚ) := by
      exact_mod_cast h2
    positivity

theorem F32.round_mono_pos {x y : ℚ} (hx : 0 < x) (h : x ≤ y) :
    F32.round x ≤ F32.round y := by
  have hy : 0 < y := lt_of_lt_of_le hx h
  have hlog : Int.log 2 x ≤ Int.log 2 y := Int.log_mono_right hx h
  unfold F32.round
  rw [if_neg hx.ne', if_neg hy.ne', abs_of_pos hx, abs_of_pos hy]
  rcases eq_or_lt_of_le (max_le_max hlog (le_refl (-126 : ℤ))) with he | he
  · rw [he]
    have hu : (0 : ℚ) < 2 ^ (max (Int.log 2 y) (-126) - 23) := by positivity
    have h1 : x / 2 ^ (max (Int.log 2 y) (-126) - 23) ≤ y / 2 ^ (max (Int.log 2 y) (-126) - 23) :=
      div_le_div_of_nonneg_right h hu.le
    have h2 := roundHalfEven_mono h1
    exact mul_le_mul_of_nonneg_right (by exact_mod_cast h2) hu.le
  · have hey : max (Int.log 2 y) (-126) = Int.log 2 y := by
      apply max_eq_left
      have := le_max_right (Int.log 2 x) (-126)
      omega
    have hx1 : x ≤ 2 ^ (max (Int.log 2 x) (-126) + 1) := by
      have h1 := Int.lt_zpow_succ_log_self (by norm_num : 1 < 2) x
      have h2 : (2 : ℚ) ^ (Int.log 2 x + 1) ≤ 2 ^ (max (Int.log 2 x) (-126) + 1) :=
        zpow_le_zpow_right₀ (by norm_num) (by have := le_max_left (Int.log 2 x) (-126); omega)
      have h3 : x < (2 : ℚ) ^ (Int.log 2 x + 1) := by exact_mod_cast h1
      linarith
    have hy1 : (2 : ℚ) ^ (max (Int.log 2 y) (-126)) ≤ y := by
      rw [hey]
      have h1 := Int.zpow_log_le_self (by norm_num : 1 < 2) hy
      exact_mod_cast h1
    have hmid : (2 : ℚ) ^ (max (Int.log 2 x) (-126) + 1) ≤ 2 ^ (max (Int.log 2 y) (-126)) :=
      zpow_le_zpow_right₀ (by norm_num) (by omega)
    exact le_trans (grid_round_le hx1) (le_trans hmid (le_grid_round hy1))

theorem F32.round_mono {x y : ℚ} (h : x ≤ y) : F32.round x ≤ F32.round y := by
  rcases lt_or_le 0 x with hx | hx
  · exact F32.round_mono_pos hx h
  · rcases le_or_lt 0 y with hy | hy
    · have h1 : F32.round x ≤ 0 := by
        have := F32.round_nonneg (neg_nonneg.mpr hx)
        rw [F32.round_neg] at this
        linarith
      exact le_trans h1 (F32.round_nonneg hy)
    · have h1 := F32.round_mono_pos (neg_pos.mpr hy) (neg_le_neg h)
      rw [F32.round_neg, F32.round_neg] at h1
      linarith

/-- A whole number below 2^24 is a binary32 value: rounding leaves it as it is
(the conversion of such an int to float is exact). -/
theorem F32.round_natCast (n : ℕ) (h : n < 2 ^ 24) : F32.round (n : ℚ) = (n : ℚ) := by
  rcases Nat.eq_zero_or_pos n with h0 | h0
  · subst h0
    simp [F32.round]
  · have hn0 : (n : ℚ) ≠ 0 := by exact_mod_cast h0.ne'
    have hk : Nat.log 2 n < 24 := Nat.log_lt_of_lt_pow h0.ne' h
    obtain ⟨j, hj⟩ : ∃ j : ℕ, j = 23 - Nat.log 2 n := ⟨_, rfl⟩
    have he : ((Nat.log 2 n : ℕ) : ℤ) - 23 = -(j : ℤ) := by omega
    unfold F32.round
    rw [if_neg hn0, abs_of_nonneg (Nat.cast_nonneg n), Int.log_natCast,
      max_eq_left (by omega : (-126 : ℤ) ≤ ((Nat.log 2 n : ℕ) : ℤ))]
    simp only [he, zpow_neg, zpow_natCast]
    have hpos : (0 : ℚ) < 2 ^ j := by positivity
    have hint : (n : ℚ) / (2 ^ j)⁻¹ = (((n * 2 ^ j : ℕ) : ℤ) : ℚ) := by
      push_cast
      field_simp
    rw [hint, roundHalfEven_intCast]
    push_cast
    field_simp

/-! ## The bar: product, conversion, loops -/

theorem product_eq_min (d : ℚ) :
    print_distance_bar.product d = F32.round (F32.round (min d 200 / 200) * 40) := by
  unfold print_distance_bar.product
  rcases le_or_lt d 200 with h | h
  · simp [min_eq_left h, not_lt.mpr h]
  · simp [min_eq_right h.le, h]

theorem product_cap (d : ℚ) :
    print_distance_bar.product d = print_distance_bar.product (min d 200) := by
  rw [product_eq_min, product_eq_min, min_eq_left (min_le_right d 200)]

theorem product_mono {d1 d2 : ℚ} (h : d1 ≤ d2) :
    print_distance_bar.product d1 ≤ print_distance_bar.product d2 := by
  rw [product_eq_min, product_eq_min]
  apply F32.round_mono
  apply mul_le_mul_of_nonneg_right _ (by norm_num)
  apply F32.round_mono
  exact div_le_div_of_nonneg_right (min_le_min h (le_refl _)) (by norm_num)

theorem product_multiple_of_five :
    ∀ k : Fin 41, print_distance_bar.product (5 * (k.val : ℚ)) = (k.val : ℚ) := by
  decide!

theorem toInt_of_bounds {x : ℚ} (h0 : 0 ≤ x) (h1 : x ≤ 40) :
    toInt x = some ⌊x⌋ ∧ 0 ≤ ⌊x⌋ ∧ ⌊x⌋ ≤ 40 := by
  have h2 : 0 ≤ ⌊x⌋ := Int.floor_nonneg.mpr h0
  have h3 : ⌊x⌋ ≤ 40 := by
    have : ⌊x⌋ ≤ ⌊(40 : ℚ)⌋ := Int.floor_mono h1
    simpa using this
  refine ⟨?_, h2, h3⟩
  unfold toInt
  simp only [h0, if_true]
  rw [if_pos]
  constructor <;> omega

theorem product_le_forty (d : ℚ) : print_distance_bar.product d ≤ 40 := by
  have h1 : print_distance_bar.product d ≤ print_distance_bar.product (max d 200) :=
    product_mono (le_max_left d 200)
  have h2 : print_distance_bar.product (max d 200) = 40 := by
    rw [product_eq_min, min_eq_right (le_max_right d 200)]
    decide!
  linarith

theorem product_nonneg {d : ℚ} (h : 0 ≤ d) : 0 ≤ print_distance_bar.product d := by
  have h1 := product_mono h
  have h2 : print_distance_bar.product 0 = 0 := by decide!
  linarith

theorem toInt_some {x : ℚ} {a : ℤ} (hx : toInt x = some a) :
    a = if 0 ≤ x then ⌊x⌋ else ⌈x⌉ := by
  unfold toInt at hx
  simp only at hx
  by_cases hc : (-2147483648 ≤ (if 0 ≤ x then ⌊x⌋ else ⌈x⌉)
      ∧ (if 0 ≤ x then ⌊x⌋ else ⌈x⌉) ≤ 2147483647)
  · rw [if_pos hc] at hx
    exact (Option.some.inj hx).symm
  · rw [if_neg hc] at hx
    exact absurd hx (by simp)

theorem toInt_mono {x y : ℚ} {a b : ℤ} (h : x ≤ y) (hx : toInt x = some a)
    (hy : toInt y = some b) : a ≤ b := by
  rw [toInt_some hx, toInt_some hy]
  by_cases h0 : 0 ≤ x
  · have h1 : 0 ≤ y := le_trans h0 h
    rw [if_pos h0, if_pos h1]
    exact Int.floor_mono h
  · rw [if_neg h0]
    by_cases h1 : 0 ≤ y
    · rw [if_pos h1]
      have h2 : ⌈x⌉ ≤ 0 := Int.ceil_le.mpr (by push_cast; linarith)
      have h3 : 0 ≤ ⌊y⌋ := Int.floor_nonneg.mpr h1
      omega
    · rw [if_neg h1]
      exact Int.ceil_mono h

theorem putchar_loop_eq (c : Char) (i bound : ℤ) :
    putchar_loop c i bound = List.replicate (bound - i).toNat c := by
  generalize h : (bound - i).toNat = n
  induction n generalizing i with
  | zero =>
    rw [putchar_loop, if_neg (by omega)]
    rfl
  | succ n ih =>
    rw [putchar_loop, if_pos (by omega), ih (i + 1) (by omega)]
    rfl

/-! ## Rounding error and symmetry -/

theorem roundHalfEven_error (y : ℚ) : |(roundHalfEven y : ℚ) - y| ≤ 1 / 2 := by
  have h1 : (⌊y⌋ : ℚ) ≤ y := Int.floor_le y
  have h2 : y < ⌊y⌋ + 1 := Int.lt_floor_add_one y
  unfold roundHalfEven
  rw [abs_le]
  split_ifs <;> push_cast <;> constructor <;> linarith

/-- C1. classify_distance is a total four-way partition by the thresholds 0, 50
and 100: the status is INVALID exactly when d < 0, STOP exactly when
0 ≤ d < 50, CAUTION exactly when 50 ≤ d < 100 and SAFE exactly when 100 ≤ d,
so the boundaries 0, 50 and 100 belong to STOP, CAUTION and SAFE. -/
theorem classify_distance_partition (d : ℚ) :
    (classify_distance d = "INVALID" ↔ d < 0) ∧
    (classify_distance d = "STOP" ↔ 0 ≤ d ∧ d < 50) ∧
    (classify_distance d = "CAUTION" ↔ 50 ≤ d ∧ d < 100) ∧
    (classify_distance d = "SAFE" ↔ 100 ≤ d) := by
  unfold classify_distance
  by_cases h0 : d < 0
  · have h1 : ¬ (0 ≤ d) := not_le.mpr h0
    have h2 : ¬ (50 ≤ d) := by intro h; linarith
    have h3 : ¬ (100 ≤ d) := by intro h; linarith
    simp [h0, h1, h2, h3]
  · by_cases h50 : d < 50
    · have h1 : 0 ≤ d := not_lt.mp h0
      have h2 : ¬ (50 ≤ d) := not_le.mpr h50
      have h3 : ¬ (100 ≤ d) := by intro h; linarith
      simp [h0, h50, h1, h2, h3]
    · by_cases h100 : d < 100
      · have h1 : 50 ≤ d := not_lt.mp h50
        have h3 : ¬ (100 ≤ d) := not_le.mpr h100
        simp [h0, h50, h100, h1, h3]
      · have h1 : 100 ≤ d := not_lt.mp h100
        have h2 : ¬ (d < 50) := h50
        simp [h0, h50, h100, h1]

/-- C1, the concrete points of the claim: the floats nearest 49.99 and 99.99 and
the exact values 50, 100 and -1, each classified through the partition. -/
theorem classify_distance_partition_witness :
    classify_distance (F32.round (4999 / 100)) = "STOP" ∧
    classify_distance 50 = "CAUTION" ∧
    classify_distance (F32.round (9999 / 100)) = "CAUTION" ∧
    classify_distance 100 = "SAFE" ∧
    classify_distance (-1) = "INVALID" :=
  ⟨(classify_distance_partition _).2.1.mpr ⟨by decide!, by decide!⟩,
   (classify_distance_partition 50).2.2.1.mpr ⟨by norm_num, by norm_num⟩,
   (classify_distance_partition _).2.2.1.mpr ⟨by decide!, by decide!⟩,
   (classify_distance_partition 100).2.2.2.mpr (by norm_num),
   (classify_distance_partition (-1)).1.mpr (by norm_num)⟩

/-! ## Fill count (C3, C5) -/

theorem filled_nonneg_bounds {d : ℚ} (h : 0 ≤ d) :
    ∃ f, print_distance_bar.filled d = some f ∧
      ⌊min d 200 / 200 * 40⌋ ≤ f ∧ f ≤ ⌊min d 200 / 200 * 40⌋ + 1 ∧ 0 ≤ f ∧ f ≤ 40 := by
  have hp0 := product_nonneg h
  have hp40 := product_le_forty d
  obtain ⟨hf, hf0, hf40⟩ := toInt_of_bounds hp0 hp40
  refine ⟨⌊print_distance_bar.product d⌋, hf, ?_, ?_, hf0, hf40⟩
  · -- the product at the multiple of five below is the floor itself
    have hc0 : (0 : ℚ) ≤ min d 200 := le_min h (by norm_num)
    have hc200 : min d 200 ≤ 200 := min_le_right d 200
    have hk0 : 0 ≤ ⌊min d 200 / 200 * 40⌋ := Int.floor_nonneg.mpr (by positivity)
    have hk40 : ⌊min d 200 / 200 * 40⌋ ≤ 40 := by
      have : ⌊min d 200 / 200 * 40⌋ ≤ ⌊(40 : ℚ)⌋ := Int.floor_mono (by linarith)
      simpa using this
    have hkle : ((⌊min d 200 / 200 * 40⌋ : ℤ) : ℚ) ≤ min d 200 / 200 * 40 := Int.floor_le _
    obtain ⟨k, hk⟩ : ∃ k : ℕ, (k : ℤ) = ⌊min d 200 / 200 * 40⌋ :=
      ⟨(⌊min d 200 / 200 * 40⌋).toNat, Int.toNat_of_nonneg hk0⟩
    have hk41 : k < 41 := by omega
    have hev := product_multiple_of_five ⟨k, hk41⟩
    simp only at hev
    have hkq : ((k : ℕ) : ℚ) = ((⌊min d 200 / 200 * 40⌋ : ℤ) : ℚ) := by
      rw [← hk]
      simp
    have hle : 5 * (k : ℚ) ≤ d := by
      have : 5 * (k : ℚ) ≤ min d 200 := by rw [hkq]; linarith
      exact le_trans this (min_le_left d 200)
    have hm := product_mono hle
    rw [hev] at hm
    rw [← hk]
    exact Int.le_floor.mpr (by exact_mod_cast hm)
  · -- and at the multiple of five above it is the floor plus one
    have hk0 : 0 ≤ ⌊min d 200 / 200 * 40⌋ := Int.floor_nonneg.mpr
      (by have : (0 : ℚ) ≤ min d 200 := le_min h (by norm_num)
          positivity)
    rcases lt_or_le (⌊min d 200 / 200 * 40⌋) 40 with hlt | hge
    · obtain ⟨k, hk⟩ : ∃ k : ℕ, (k : ℤ) = ⌊min d 200 / 200 * 40⌋ + 1 :=
        ⟨(⌊min d 200 / 200 * 40⌋ + 1).toNat, Int.toNat_of_nonneg (by omega)⟩
      have hk41 : k < 41 := by omega
      have hev := product_multiple_of_five ⟨k, hk41⟩
      simp only at hev
      have hkq : ((k : ℕ) : ℚ) = ((⌊min d 200 / 200 * 40⌋ : ℤ) : ℚ) + 1 := by
        have : ((k : ℤ) : ℚ) = ((⌊min d 200 / 200 * 40⌋ + 1 : ℤ) : ℚ) := by rw [hk]
        push_cast at this
        exact this
      have hlt1 : min d 200 / 200 * 40 < ((⌊min d 200 / 200 * 40⌋ : ℤ) : ℚ) + 1 :=
        Int.lt_floor_add_one _
      have hmin : min d 200 ≤ 5 * (k : ℚ) := by rw [hkq]; linarith
      have hm : print_distance_bar.product d ≤ (k : ℚ) := by
        rw [product_cap d]
        exact le_trans (product_mono hmin) (le_of_eq hev)
      have : ⌊print_distance_bar.product d⌋ ≤ (k : ℤ) :=
        Int.floor_le_iff.mpr (by
          have hm1 : print_distance_bar.product d < ((k : ℤ) : ℚ) + 1 := by
            push_cast
            linarith
          exact hm1)
      omega
    · omega

/-- C5. The fill count is monotonically non-decreasing in the distance, negative
distances and distances above 200 included: when d1 ≤ d2 and the conversion to
int is defined at d1, it is defined at d2 and fill(d1) ≤ fill(d2). -/
theorem filled_monotone (d1 d2 : ℚ) (f1 : ℤ) (h : d1 ≤ d2)
    (h1 : print_distance_bar.filled d1 = some f1) :
    ∃ f2, print_distance_bar.filled d2 = some f2 ∧ f1 ≤ f2 := by
  unfold print_distance_bar.filled at h1 ⊢
  have hp := product_mono h
  have hp40 := product_le_forty d2
  have ha := toInt_some h1
  have hrange : -2147483648 ≤ f1 ∧ f1 ≤ 2147483647 := by
    unfold toInt at h1
    simp only at h1
    by_cases hc : (-2147483648 ≤ (if 0 ≤ print_distance_bar.product d1
        then ⌊print_distance_bar.product d1⌋ else ⌈print_distance_bar.product d1⌉)
        ∧ (if 0 ≤ print_distance_bar.product d1
        then ⌊print_distance_bar.product d1⌋ else ⌈print_distance_bar.product d1⌉) ≤ 2147483647)
    · rw [← ha] at hc
      exact hc
    · rw [if_neg hc] at h1
      exact absurd h1 (by simp)
  -- the truncation of the second product lies between f1 and 40
  have hmono : f1 ≤ (if 0 ≤ print_distance_bar.product d2
      then ⌊print_distance_bar.product d2⌋ else ⌈print_distance_bar.product d2⌉) := by
    rw [ha]
    by_cases h0 : 0 ≤ print_distance_bar.product d1
    · have h2 : 0 ≤ print_distance_bar.product d2 := le_trans h0 hp
      rw [if_pos h0, if_pos h2]
      exact Int.floor_mono hp
    · rw [if_neg h0]
      by_cases h2 : 0 ≤ print_distance_bar.product d2
      · rw [if_pos h2]
        have h3 : ⌈print_distance_bar.product d1⌉ ≤ 0 :=
          Int.ceil_le.mpr (by push_cast; linarith)
        have h4 : 0 ≤ ⌊print_distance_bar.product d2⌋ := Int.floor_nonneg.mpr h2
        omega
      · rw [if_neg h2]
        exact Int.ceil_mono hp
  have hupper : (if 0 ≤ print_distance_bar.product d2
      then ⌊print_distance_bar.product d2⌋ else ⌈print_distance_bar.product d2⌉) ≤ 40 := by
    split_ifs
    · have : ⌊print_distance_bar.product d2⌋ ≤ ⌊(40 : ℚ)⌋ := Int.floor_mono hp40
      simpa using this
    · exact Int.ceil_le.mpr (by push_cast; linarith)
  refine ⟨_, ?_, hmono⟩
  unfold toInt
  simp only
  rw [if_pos]
  constructor <;> omega

/-- C5 at concrete distances on both sides of zero and of the cap. -/
theorem filled_monotone_witness :
    (-7 : ℚ) ≤ 250 ∧ print_distance_bar.filled (-7) = some (-1) ∧
    ∃ f2, print_distance_bar.filled 250 = some f2 ∧ (-1 : ℤ) ≤ f2 :=
  ⟨by norm_num, by decide!,
   filled_monotone (-7) 250 (-1) (by norm_num) (by decide!)⟩

/-! ## The bar text (C4) -/

theorem print_distance_bar_text {d : ℚ} {f : ℤ} (h : print_distance_bar.filled d = some f) :
    print_distance_bar d = some ("[" ++ String.mk
        (List.replicate f.toNat '#' ++ List.replicate (40 - f).toNat ' ') ++ "]" ++ " \n") := by
  unfold print_distance_bar
  simp only [h, putchar_loop_eq, sub_zero]
  congr 1
  apply String.ext
  simp [String.data_append]

/-- C4, counterexample. At d = 0 the text written is the bracket, 40 blanks and
then the three characters of the format "] \n": 44 characters, not 42. -/
theorem print_distance_bar_length_counterexample :
    ∃ text, print_distance_bar 0 = some text ∧ text.length = 44 ∧ text.length ≠ 42 := by
  have h : print_distance_bar.filled 0 = some 0 := by decide!
  exact ⟨_, print_distance_bar_text h, by decide, by decide⟩

/-- C4, amended. For every distance d ≥ 0, so for every d with 0 ≤ d ≤ 200, the
text print_distance_bar writes is the 42-character bar, a '[' then 40 cells (fill
count '#' characters followed by 40 minus fill count blanks) then a ']',
followed by one blank and a newline: 44 characters in all. -/
theorem print_distance_bar_shape (d : ℚ) (h0 : 0 ≤ d) :
    ∃ f : ℕ, f ≤ 40 ∧ print_distance_bar.filled d = some (f : ℤ) ∧
      print_distance_bar d = some ("[" ++ String.mk
        (List.replicate f '#' ++ List.replicate (40 - f) ' ') ++ "]" ++ " \n") ∧
      ("[" ++ String.mk
        (List.replicate f '#' ++ List.replicate (40 - f) ' ') ++ "]").length = 42 ∧
      ("[" ++ String.mk
        (List.replicate f '#' ++ List.replicate (40 - f) ' ') ++ "]" ++ " \n").length = 44 := by
  obtain ⟨f, hf, _, _, hf0, hf40⟩ := filled_nonneg_bounds h0
  obtain ⟨n, rfl⟩ : ∃ n : ℕ, f = (n : ℤ) := ⟨f.toNat, (Int.toNat_of_nonneg hf0).symm⟩
  have hn : n ≤ 40 := by omega
  refine ⟨n, hn, hf, ?_, ?_, ?_⟩
  · rw [print_distance_bar_text hf]
    have : ((40 : ℤ) - (n : ℤ)).toNat = 40 - n := by omega
    rw [this, Int.toNat_ofNat]
  · simp only [String.length_append, String.length_mk, List.length_append,
      List.length_replicate]
    have h1 : "[".length = 1 := rfl
    have h2 : "]".length = 1 := rfl
    rw [h1, h2]
    omega
  · simp only [String.length_append, String.length_mk, List.length_append,
      List.length_replicate]
    have h1 : "[".length = 1 := rfl
    have h2 : "]".length = 1 := rfl
    have h3 : " \n".length = 2 := rfl
    rw [h1, h2, h3]
    omega

/-- C4, amended, at d = 100: fill count 20. -/
theorem print_distance_bar_shape_witness :
    print_distance_bar.filled 100 = some 20 ∧ ∃ f : ℕ, f ≤ 40 ∧ print_distance_bar.filled 100 = some (f : ℤ) ∧
      print_distance_bar 100 = some ("[" ++ String.mk
        (List.replicate f '#' ++ List.replicate (40 - f) ' ') ++ "]" ++ " \n") ∧
      ("[" ++ String.mk
        (List.replicate f '#' ++ List.replicate (40 - f) ' ') ++ "]").length = 42 ∧
      ("[" ++ String.mk
        (List.replicate f '#' ++ List.replicate (40 - f) ' ') ++ "]" ++ " \n").length = 44 :=
  ⟨by decide!, print_distance_bar_shape 100 (by norm_num)⟩

/-! ## The two embeddings agree on finite values -/

theorem flt_classify_distance_fin (q : ℚ) :
    Flt.classify_distance (Flt.fin q) = classify_distance q := by
  unfold Flt.classify_distance classify_distance Flt.lt
  simp

theorem F32.round_two_pow_32 : F32.round 4294967296 = 4294967296 := by
  unfold F32.round
  have hlog : Int.log 2 |(4294967296 : ℚ)| = 32 := by
    have h1 : |(4294967296 : ℚ)| = ((2 : ℕ) : ℚ) ^ (32 : ℤ) := by norm_num
    rw [h1, Int.log_zpow (by norm_num : 1 < 2)]
  rw [if_neg (by norm_num), hlog]
  have hmax : max (32 : ℤ) (-126) = 32 := by decide
  rw [hmax]
  show (roundHalfEven (4294967296 / 2 ^ ((32 : ℤ) - 23)) : ℚ) * 2 ^ ((32 : ℤ) - 23)
    = 4294967296
  have hdiv : (4294967296 : ℚ) / 2 ^ ((32 : ℤ) - 23) = ((8388608 : ℤ) : ℚ) := by norm_num
  rw [hdiv, roundHalfEven_intCast]
  norm_num

theorem F32.round_large {y : ℚ} (h : 4294967296 ≤ |y|) : 4294967296 ≤ |F32.round y| := by
  rcases le_total 0 y with hy | hy
  · rw [abs_of_nonneg hy] at h
    have h1 := F32.round_mono h
    rw [F32.round_two_pow_32] at h1
    exact le_trans h1 (le_abs_self _)
  · rw [abs_of_nonpos hy] at h
    have h1 := F32.round_mono h
    rw [F32.round_two_pow_32, F32.round_neg] at h1
    exact le_trans h1 (neg_le_abs _)

theorem toInt_none_of_large {x : ℚ} (h : 4294967296 ≤ |x|) : toInt x = none := by
  unfold toInt
  simp only
  rw [if_neg]
  intro hc
  rcases le_total 0 x with hx | hx
  · rw [abs_of_nonneg hx] at h
    rw [if_pos hx] at hc
    have : (4294967296 : ℤ) ≤ ⌊x⌋ := Int.le_floor.mpr (by exact_mod_cast h)
    omega
  · rw [abs_of_nonpos hx] at h
    have hx0 : ¬ (0 ≤ x) := by
      intro h0
      have : x = 0 := le_antisymm hx h0
      rw [this] at h
      norm_num at h
    rw [if_neg hx0] at hc
    have : ⌈x⌉ ≤ (-4294967296 : ℤ) := Int.ceil_le.mpr (by push_cast; linarith)
    omega

theorem flt_result_toInt (neg : Bool) (x : ℚ) :
    (Flt.result neg x).toInt = toInt (F32.round x) := by
  unfold Flt.result
  split_ifs with h1 h2 h3
  · have hl : (4294967296 : ℚ) ≤ |F32.round x| := le_trans (by norm_num) h1
    rw [toInt_none_of_large hl]
    rfl
  · rw [h2]
    decide!
  · rw [h2]
    decide!
  · rfl

theorem flt_result_mul_toInt (neg : Bool) (x : ℚ) :
    ((Flt.result neg x).mul 40).toInt = toInt (F32.round (F32.round x * 40)) := by
  have hzero : toInt (F32.round (0 * 40)) = some 0 := by decide!
  unfold Flt.result
  split_ifs with h1 h2 h3
  · have hl : (4294967296 : ℚ) ≤ |F32.round x * 40| := by
      rw [abs_mul]
      have : (0 : ℚ) ≤ |F32.round x| := abs_nonneg _
      have h40 : |(40 : ℚ)| = 40 := by norm_num
      rw [h40]
      linarith
    rw [toInt_none_of_large (F32.round_large hl)]
    rfl
  · rw [h2, hzero]
    rfl
  · rw [h2, hzero]
    decide!
  · exact flt_result_toInt _ _

theorem flt_filled_fin (q : ℚ) : Flt.filled (Flt.fin q) = print_distance_bar.filled q := by
  unfold Flt.filled print_distance_bar.filled print_distance_bar.product
  by_cases h : q > 200
  · have hg : (Flt.fin q).gt 200 = true := by simp [Flt.gt, h]
    simp only [hg, if_true, h]
    exact flt_result_mul_toInt _ _
  · have hg : (Flt.fin q).gt 200 = false := by simp [Flt.gt, not_lt.mp h]
    simp only [hg, h, if_false]
    exact flt_result_mul_toInt _ _

theorem flt_print_distance_bar_fin (q : ℚ) :
    Flt.print_distance_bar (Flt.fin q) = print_distance_bar q := by
  unfold Flt.print_distance_bar print_distance_bar
  rw [flt_filled_fin]

theorem flt_not_lt_zero_fin {q : ℚ} (h : (Flt.fin q).lt 0 = false) : 0 ≤ q := by
  simpa [Flt.lt] using h

theorem flt_filled_bounds {d : Flt} (h1 : d.lt 0 = false) (h2 : d.is_nan = false) :
    ∃ f, Flt.filled d = some f ∧ 0 ≤ f ∧ f ≤ 40 := by
  cases d with
  | fin q =>
    obtain ⟨f, hf, _, _, h0, h40⟩ := filled_nonneg_bounds (flt_not_lt_zero_fin h1)
    exact ⟨f, by rw [flt_filled_fin, hf], h0, h40⟩
  | negzero => exact ⟨0, by decide!, by decide, by decide⟩
  | inf neg =>
    cases neg with
    | false => exact ⟨40, by decide!, by decide, by decide⟩
    | true => simp [Flt.lt] at h1
  | nan neg => simp [Flt.is_nan] at h2

theorem flt_filled_nan (neg : Bool) : Flt.filled (Flt.nan neg) = none := by
  cases neg <;> rfl

theorem flt_print_distance_bar_eq {d : Flt} {f : ℤ} (h : Flt.filled d = some f) :
    Flt.print_distance_bar d = some (expected_bar f) := by
  unfold Flt.print_distance_bar expected_bar
  simp only [h, putchar_loop_eq, sub_zero]
  congr 1
  apply String.ext
  simp [String.data_append]

theorem flt_classify_distance_valid {d : Flt} (h : d.lt 0 = false) :
    Flt.classify_distance d ≠ "INVALID" := by
  unfold Flt.classify_distance
  rw [h]
  simp only [Bool.false_eq_true, if_false]
  split_ifs <;> decide

/-! ## One reading -/

theorem process_reading_defined (s : State) {d : Flt} {f : ℤ} (h : Flt.filled d = some f) :
    process_reading s d = some
      { s with
        stdout := s.stdout ++ reading_line (s.clock 0) d (Flt.classify_distance d)
          ++ expected_bar f
        log := (log_reading (s.fopen_a 0) s.log (s.clock 0) d).1
        stderr := s.stderr ++ (log_reading (s.fopen_a 0) s.log (s.clock 0) d).2
        clock := drop_stream 1 s.clock
        fopen_a := drop_stream 1 s.fopen_a
        trace := s.trace ++ [d] } := by
  unfold process_reading
  simp only
  rw [flt_print_distance_bar_eq h]
  rfl

theorem process_reading_undefined (s : State) {d : Flt} (h : Flt.filled d = none) :
    process_reading s d = none := by
  unfold process_reading Flt.print_distance_bar
  simp only [h]

/-! ## The manual loop -/

theorem manual_step_eof (s : State) (h : s.stdin = []) :
    manual_step s = Step.next
      { s with stdout := s.stdout ++ "Enter distance (cm): " ++ "Please enter a number.\n" } := by
  unfold manual_step State.print
  simp only [h]

theorem manual_step_junk (s : State) (rest : List Entry) (h : s.stdin = Entry.junk :: rest) :
    manual_step s = Step.next
      { s with
        stdin := rest
        stdout := s.stdout ++ "Enter distance (cm): " ++ "Please enter a number.\n" } := by
  unfold manual_step State.print
  simp only [h]

theorem manual_step_negative (s : State) (d : Flt) (rest : List Entry)
    (h : s.stdin = Entry.num d :: rest) (hd : d.lt 0 = true) :
    manual_step s = Step.leave
      { s with
        stdin := rest
        stdout := s.stdout ++ "Enter distance (cm): " ++ "Exiting manual mode.\n" } := by
  unfold manual_step State.print
  simp only [h, hd, if_true]

theorem manual_step_reading (s : State) (d : Flt) (rest : List Entry) (f : ℤ)
    (h : s.stdin = Entry.num d :: rest) (hd : d.lt 0 = false) (hf : Flt.filled d = some f) :
    manual_step s = Step.next
      { s with
        stdin := rest
        stdout := s.stdout ++ "Enter distance (cm): "
          ++ reading_line (s.clock 0) d (Flt.classify_distance d)
          ++ expected_bar f
        log := (log_reading (s.fopen_a 0) s.log (s.clock 0) d).1
        stderr := s.stderr ++ (log_reading (s.fopen_a 0) s.log (s.clock 0) d).2
        clock := drop_stream 1 s.clock
        fopen_a := drop_stream 1 s.fopen_a
        trace := s.trace ++ [d] } := by
  unfold manual_step State.print
  simp only [h, hd, Bool.false_eq_true, if_false, process_reading_defined _ hf, State.print]

theorem manual_step_undefined (s : State) (d : Flt) (rest : List Entry)
    (h : s.stdin = Entry.num d :: rest) (hd : d.lt 0 = false) (hf : Flt.filled d = none) :
    manual_step s = Step.undefined := by
  unfold manual_step State.print
  simp only [h, hd, Bool.false_eq_true, if_false, process_reading_undefined _ hf]

theorem expected_readings_junk (es : List Entry) :
    expected_readings (Entry.junk :: es) = expected_readings es := by
  simp [expected_readings, Entry.negative, Entry.reading]

theorem expected_readings_negative (d : Flt) (es : List Entry) (hd : d.lt 0 = true) :
    expected_readings (Entry.num d :: es) = [] := by
  simp [expected_readings, Entry.negative, hd]

theorem expected_readings_reading (d : Flt) (es : List Entry) (hd : d.lt 0 = false) :
    expected_readings (Entry.num d :: es) = d :: expected_readings es := by
  simp [expected_readings, Entry.negative, Entry.reading, hd]

/-- A manual loop whose input holds a negative number and no NaN before it ends
by break, whatever the outcomes of fopen, with the expected readings, dialogue
and log. -/
theorem manual_loop_run (entries : List Entry) :
    ∀ (s : State) (fuel : ℕ), s.stdin = entries →
      (∃ e ∈ entries, Entry.negative e = true) →
      (∀ d ∈ expected_readings entries, Flt.is_nan d = false) →
      entries.length ≤ fuel →
      ∃ s1, while_loop manual_step finish fuel s = Outcome.exit 0 s1 ∧
        s1.trace = s.trace ++ expected_readings entries ∧
        s1.stdout = s.stdout ++ expected_display s.clock entries
          ++ "Simulation ended. Log file: parking_log.csv\n" ∧
        s1.log = append_records s.fopen_a s.clock s.log (expected_readings entries) := by
  induction entries with
  | nil =>
    intro s fuel _ hneg _ _
    obtain ⟨e, he, _⟩ := hneg
    exact absurd he (List.not_mem_nil e)
  | cons e es ih =>
    intro s fuel hs hneg hnan hfuel
    obtain ⟨fuel, rfl⟩ : ∃ k, fuel = k + 1 := ⟨fuel - 1, by simp at hfuel; omega⟩
    have hfuel1 : es.length ≤ fuel := by simpa using hfuel
    cases e with
    | junk =>
      have hneg1 : ∃ e ∈ es, Entry.negative e = true := by
        obtain ⟨e, he, hn⟩ := hneg
        rcases List.mem_cons.mp he with rfl | he
        · simp [Entry.negative] at hn
        · exact ⟨e, he, hn⟩
      rw [expected_readings_junk] at hnan
      obtain ⟨s1, h1, h2, h3, h4⟩ := ih
        { s with
          stdin := es
          stdout := s.stdout ++ "Enter distance (cm): " ++ "Please enter a number.\n" }
        fuel rfl hneg1 hnan hfuel1
      refine ⟨s1, ?_, ?_, ?_, ?_⟩
      · simp only [while_loop, manual_step_junk s es hs]
        exact h1
      · rw [h2, expected_readings_junk]
      · rw [h3]
        simp [expected_display, String.append_assoc]
      · rw [h4, expected_readings_junk]
    | num d =>
      rcases hd : d.lt 0 with _ | _
      · rw [expected_readings_reading d es hd] at hnan
        have hneg1 : ∃ e ∈ es, Entry.negative e = true := by
          obtain ⟨e, he, hn⟩ := hneg
          rcases List.mem_cons.mp he with rfl | he
          · simp [Entry.negative, hd] at hn
          · exact ⟨e, he, hn⟩
        obtain ⟨f, hf, _, _⟩ := flt_filled_bounds hd (hnan d (List.mem_cons_self _ _))
        obtain ⟨s1, h1, h2, h3, h4⟩ := ih
          { s with
            stdin := es
            stdout := s.stdout ++ "Enter distance (cm): "
              ++ reading_line (s.clock 0) d (Flt.classify_distance d)
              ++ expected_bar f
            log := (log_reading (s.fopen_a 0) s.log (s.clock 0) d).1
            stderr := s.stderr ++ (log_reading (s.fopen_a 0) s.log (s.clock 0) d).2
            clock := drop_stream 1 s.clock
            fopen_a := drop_stream 1 s.fopen_a
            trace := s.trace ++ [d] }
          fuel rfl hneg1 (fun x hx => hnan x (List.mem_cons_of_mem _ hx)) hfuel1
        refine ⟨s1, ?_, ?_, ?_, ?_⟩
        · simp only [while_loop, manual_step_reading s d es f hs hd hf]
          exact h1
        · rw [h2, expected_readings_reading d es hd]
          simp
        · rw [h3]
          simp [expected_display, hd, hf, reading_line, String.append_assoc]
        · rw [h4, expected_readings_reading d es hd]
          simp [append_records]
      · refine ⟨State.print
            { s with
              stdin := es
              stdout := s.stdout ++ "Enter distance (cm): " ++ "Exiting manual mode.\n" }
            "Simulation ended. Log file: parking_log.csv\n", ?_, ?_, ?_, ?_⟩
        · simp only [while_loop, manual_step_negative s d es hs hd, finish]
        · simp [State.print, expected_readings_negative d es hd]
        · simp [State.print, expected_display, hd, String.append_assoc]
        · simp [State.print, expected_readings_negative d es hd, append_records]

theorem append_records_all_opened (clock : ℕ → String) (text : String) (ds : List Flt) :
    ∀ (fopen_a : ℕ → Bool), (∀ n, fopen_a n = true) →
      append_records fopen_a clock (some text) ds
        = some (text ++ expected_records clock ds) := by
  induction ds generalizing clock text with
  | nil =>
    intro _ _
    simp [append_records, expected_records]
  | cons d ds ih =>
    intro fopen_a h
    simp only [append_records, expected_records, log_reading, h 0, if_true, Option.getD_some]
    rw [ih (drop_stream 1 clock) _ (drop_stream 1 fopen_a) (fun n => h (n + 1))]
    simp [log_record, String.append_assoc]

/-! ## Manual sessions (C2) -/

/-- C2, counterexample. With the entries "nan" and "-1" (mode 1): the first is
a number to scanf, is not negative and is classified SAFE, so it is processed
as a reading, yet it is no non-negative number; its fill count, the conversion
of a NaN to int, is undefined, and the run is not one that ends with status
0. -/
theorem manual_session_counterexample :
    (∃ e ∈ [Entry.num (Flt.nan false), Entry.num (Flt.fin (-1))], Entry.negative e = true) ∧
    (Flt.nan false).lt 0 = false ∧
    Flt.classify_distance (Flt.nan false) = "SAFE" ∧
    Flt.filled (Flt.nan false) = none ∧
    main 2 true (some 1)
        { demo_state with stdin := [Entry.num (Flt.nan false), Entry.num (Flt.fin (-1))] }
      = Outcome.undefined ∧
    ¬ ∃ (fuel : ℕ) (s1 : State),
      main fuel true (some 1)
          { demo_state with stdin := [Entry.num (Flt.nan false), Entry.num (Flt.fin (-1))] }
        = Outcome.exit 0 s1 := by
  have hstep : ∀ s : State, s.stdin = [Entry.num (Flt.nan false), Entry.num (Flt.fin (-1))] →
      manual_step s = Step.undefined :=
    fun s hs => manual_step_undefined s _ _ hs rfl rfl
  refine ⟨⟨Entry.num (Flt.fin (-1)), by simp, by decide!⟩, rfl, by decide, rfl, ?_, ?_⟩
  · simp only [main, if_true, while_loop]
    rw [hstep _ rfl]
  · rintro ⟨fuel, s1, h⟩
    cases fuel with
    | zero => simp [main, while_loop] at h
    | succ n =>
      simp only [main, if_true, while_loop] at h
      rw [hstep _ rfl] at h
      exact Outcome.noConfusion h

/-- C2, amended. In manual mode (mode choice 1), for every finite sequence of
input entries that contains a negative number and no NaN before it (and with
every fopen(.., "a") succeeding): the program ends with exit status 0; the
readings processed are exactly the numeric entries that are not negative and
come before the first negative number, in input order; the log holds what it
held after startup followed by one record "timestamp,distance" per such
reading; and standard output shows each of them on a line
"[timestamp] Distance: distance cm -> status" with the status classify_distance
gives it, followed by its bar. Non-numeric entries and the negative entry
contribute no reading. -/
theorem manual_session (s : State) (created : Bool) (fuel : ℕ)
    (hneg : ∃ e ∈ s.stdin, Entry.negative e = true)
    (hnan : ∀ d ∈ expected_readings s.stdin, Flt.is_nan d = false)
    (hopen : ∀ n, s.fopen_a n = true)
    (hfuel : s.stdin.length ≤ fuel) :
    ∃ s1, main fuel created (some 1) s = Outcome.exit 0 s1 ∧
      s1.trace = s.trace ++ expected_readings s.stdin ∧
      (∀ text, init_log s.fopen_r created s.log = some text →
        s1.log = some (text ++ expected_records s.clock (expected_readings s.stdin))) ∧
      s1.stdout = s.stdout ++ banner
        ++ "Manual mode selected. Enter distance in cm (negative to exit).\n"
        ++ expected_display s.clock s.stdin
        ++ "Simulation ended. Log file: parking_log.csv\n" := by
  obtain ⟨s1, h1, h2, h3, h4⟩ := manual_loop_run s.stdin
    (State.print (State.print { s with log := init_log s.fopen_r created s.log } banner)
      "Manual mode selected. Enter distance in cm (negative to exit).\n")
    fuel rfl hneg hnan hfuel
  refine ⟨s1, ?_, ?_, ?_, ?_⟩
  · simp only [main, if_true]
    exact h1
  · rw [h2]
    rfl
  · intro text htext
    rw [h4]
    simp only [State.print, htext]
    exact append_records_all_opened _ _ _ _ hopen
  · rw [h3]
    rfl

/-- C2, amended, at the entries "abc", "30", "-1": exit status 0 and exactly one
reading, 30, logged as 30.00 after the header and shown with status STOP. And
at the entries "7.3125", "-0", "inf", "-inf": three readings, logged as 7.31,
-0.00 and inf and shown with the statuses STOP, STOP and SAFE. -/
theorem manual_session_witness :
    (∃ s1, main 3 true (some 1) demo_state = Outcome.exit 0 s1 ∧
      s1.trace = [Flt.fin 30] ∧
      s1.log = some ("timestamp,distance_cm\n" ++ "2024-05-01 12:00:00,30.00\n") ∧
      s1.stdout = banner
        ++ "Manual mode selected. Enter distance in cm (negative to exit).\n"
        ++ "Enter distance (cm): Please enter a number.\n"
        ++ "Enter distance (cm): [2024-05-01 12:00:00] Distance: 30.00 cm -> STOP\n"
        ++ "[######                                  ] \n"
        ++ "Enter distance (cm): Exiting manual mode.\n"
        ++ "Simulation ended. Log file: parking_log.csv\n") ∧
    (∃ s1, main 4 true (some 1)
        { demo_state with
          stdin := [Entry.num (Flt.fin (117 / 16)), Entry.num Flt.negzero,
            Entry.num (Flt.inf false), Entry.num (Flt.inf true)] }
        = Outcome.exit 0 s1 ∧
      s1.trace = [Flt.fin (117 / 16), Flt.negzero, Flt.inf false] ∧
      s1.log = some ("timestamp,distance_cm\n" ++ "2024-05-01 12:00:00,7.31\n"
        ++ "2024-05-01 12:00:00,-0.00\n" ++ "2024-05-01 12:00:00,inf\n") ∧
      s1.stdout = banner
        ++ "Manual mode selected. Enter distance in cm (negative to exit).\n"
        ++ "Enter distance (cm): [2024-05-01 12:00:00] Distance: 7.31 cm -> STOP\n"
        ++ "[#                                       ] \n"
        ++ "Enter distance (cm): [2024-05-01 12:00:00] Distance: -0.00 cm -> STOP\n"
        ++ "[                                        ] \n"
        ++ "Enter distance (cm): [2024-05-01 12:00:00] Distance: inf cm -> SAFE\n"
        ++ "[########################################] \n"
        ++ "Enter distance (cm): Exiting manual mode.\n"
        ++ "Simulation ended. Log file: parking_log.csv\n") := by
  constructor
  · obtain ⟨s1, h1, h2, h3, h4⟩ := manual_session demo_state true 3
      ⟨Entry.num (Flt.fin (-1)), by simp [demo_state], by decide!⟩ (by decide!)
      (fun _ => rfl) (by simp [demo_state])
    refine ⟨s1, h1, ?_, ?_, ?_⟩
    · rw [h2]
      decide!
    · rw [h3 log_header rfl]
      decide!
    · rw [h4]
      decide!
  · obtain ⟨s1, h1, h2, h3, h4⟩ := manual_session
      { demo_state with
        stdin := [Entry.num (Flt.fin (117 / 16)), Entry.num Flt.negzero,
          Entry.num (Flt.inf false), Entry.num (Flt.inf true)] }
      true 4 ⟨Entry.num (Flt.inf true), by simp, by decide!⟩ (by decide!)
      (fun _ => rfl) (by simp)
    refine ⟨s1, h1, ?_, ?_, ?_⟩
    · rw [h2]
      decide!
    · rw [h3 log_header rfl]
      decide!
    · rw [h4]
      decide!

/-! ## The log store (C6) -/

theorem foldl_log_reading (calls : List (String × Flt)) :
    ∀ text : String,
      calls.foldl (fun file c => (log_reading true file c.1 c.2).1) (some text)
        = some (text ++ store_text (calls.map fun c => c.1 ++ "," ++ fmt_2f c.2)) := by
  induction calls with
  | nil =>
    intro text
    simp [store_text]
  | cons c cs ih =>
    intro text
    have h : (log_reading true (some text) c.1 c.2).1 = some (text ++ log_record c.1 c.2) := rfl
    rw [List.foldl_cons, h, ih]
    simp [store_text, log_record, String.append_assoc]

theorem two_decimals_value (m : ℚ) (hm : 0 ≤ m) :
    ∃ ip a b : ℕ, a < 10 ∧ b < 10 ∧
      two_decimals m = toString ip ++ "." ++ toString a ++ toString b ∧
      ((100 * ip + 10 * a + b : ℕ) : ℤ) = roundHalfEven (m * 100) ∧
      |((ip : ℚ) + (a : ℚ) / 10 + (b : ℚ) / 100) - m| ≤ 1 / 200 := by
  have hnn : 0 ≤ roundHalfEven (m * 100) :=
    le_roundHalfEven (by
      have : (0 : ℚ) ≤ m * 100 := by positivity
      exact_mod_cast this)
  obtain ⟨n, hn⟩ : ∃ n : ℕ, (n : ℤ) = roundHalfEven (m * 100) :=
    ⟨(roundHalfEven (m * 100)).toNat, Int.toNat_of_nonneg hnn⟩
  have hsum : 100 * (n / 100) + 10 * (n / 10 % 10) + n % 10 = n := by omega
  refine ⟨n / 100, n / 10 % 10, n % 10, Nat.mod_lt _ (by norm_num),
    Nat.mod_lt _ (by norm_num), ?_, ?_, ?_⟩
  · unfold two_decimals
    simp only [← hn, Int.toNat_ofNat]
  · rw [hsum, hn]
  · have herr := roundHalfEven_error (m * 100)
    rw [← hn] at herr
    have hq : ((n / 100 : ℕ) : ℚ) + ((n / 10 % 10 : ℕ) : ℚ) / 10 + ((n % 10 : ℕ) : ℚ) / 100
        = (n : ℚ) / 100 := by
      have h1 : ((100 * (n / 100) + 10 * (n / 10 % 10) + n % 10 : ℕ) : ℚ) = (n : ℚ) := by
        rw [hsum]
      push_cast at h1
      linarith
    rw [hq]
    have h2 : (n : ℚ) / 100 - m = (((n : ℤ) : ℚ) - m * 100) / 100 := by
      push_cast
      ring
    rw [h2, abs_div]
    have h100 : |(100 : ℚ)| = 100 := by norm_num
    rw [h100, div_le_iff₀ (by norm_num)]
    linarith

/-- C6, counterexample. A store that exists but cannot be opened for reading is
emptied by startup and left with the header alone, so initialization changed
it; and a successful log_reading call with an infinite distance writes the
record "timestamp,inf", which has no two decimals. -/
theorem log_store_counterexample :
    init_log false true (some "timestamp,distance_cm\n2024-05-01 12:00:00,30.00\n")
      = some "timestamp,distance_cm\n" ∧
    init_log false true (some "timestamp,distance_cm\n2024-05-01 12:00:00,30.00\n")
      ≠ some "timestamp,distance_cm\n2024-05-01 12:00:00,30.00\n" ∧
    log_reading true (some "timestamp,distance_cm\n") "2024-05-01 12:00:00" (Flt.inf false)
      = (some "timestamp,distance_cm\n2024-05-01 12:00:00,inf\n", "") := by
  decide!

/-- C6, amended. Starting from a store that does not exist, startup
initialization (creating the file) followed by N successful log_reading calls
leaves a store of exactly N + 1 lines, each ended by a newline: the header line
"timestamp,distance_cm" first, then one line "timestamp,distance" per call in
call order. A finite distance is written with a minus sign when negative
(negative zero included) and its magnitude with exactly two decimals, the
nearest hundredth; an infinite or NaN distance is written inf or nan with its
sign. Each successful log_reading call keeps the text already in the store and
adds exactly one line at the end, and initialization on a store that already
exists and can be opened for reading changes nothing. -/
theorem log_store_lines (calls : List (String × Flt)) :
    (∀ opened_r : Bool, ∃ lines : List String,
      calls.foldl (fun file c => (log_reading true file c.1 c.2).1)
          (init_log opened_r true none)
        = some (store_text lines) ∧
      lines.length = calls.length + 1 ∧
      lines = "timestamp,distance_cm"
        :: calls.map (fun c => c.1 ++ "," ++ fmt_2f c.2)) ∧
    (∀ q : ℚ, ∃ ip a b : ℕ, a < 10 ∧ b < 10 ∧
      fmt_2f (Flt.fin q) = (if q < 0 then "-" else "") ++ (toString ip ++ "."
        ++ toString a ++ toString b) ∧
      ((100 * ip + 10 * a + b : ℕ) : ℤ) = roundHalfEven (|q| * 100) ∧
      |((ip : ℚ) + (a : ℚ) / 10 + (b : ℚ) / 100) - abs q| ≤ 1 / 200) ∧
    (fmt_2f Flt.negzero = "-0.00" ∧ fmt_2f (Flt.inf false) = "inf" ∧
      fmt_2f (Flt.inf true) = "-inf" ∧ fmt_2f (Flt.nan false) = "nan" ∧
      fmt_2f (Flt.nan true) = "-nan") ∧
    (∀ (text ts : String) (d : Flt),
      log_reading true (some text) ts d
        = (some (text ++ store_text [ts ++ "," ++ fmt_2f d]), "")) ∧
    (∀ (created : Bool) (text : String), init_log true created (some text) = some text) := by
  refine ⟨fun opened_r => ⟨_, ?_, ?_, rfl⟩, ?_, ?_, ?_, ?_⟩
  · show calls.foldl _ (some log_header) = _
    rw [foldl_log_reading]
    rfl
  · simp
  · intro q
    obtain ⟨ip, a, b, ha, hb, hs, hv, he⟩ := two_decimals_value |q| (abs_nonneg q)
    refine ⟨ip, a, b, ha, hb, ?_, hv, he⟩
    unfold fmt_2f
    simp only [hs]
  · decide!
  · intro text ts d
    simp [log_reading, log_record, store_text, String.append_assoc]
  · intro created text
    rfl

/-- C6, amended, at three calls on the missing store, with the distances
7.3125, -0.0 and infinity: four lines, the records reading 7.31, -0.00 and
inf. -/
theorem log_store_lines_witness :
    [("2024-05-01 12:00:00", Flt.fin (117 / 16)), ("2024-05-01 12:00:01", Flt.negzero),
        ("2024-05-01 12:00:02", Flt.inf false)].foldl
      (fun file c => (log_reading true file c.1 c.2).1) (init_log true true none)
      = some ("timestamp,distance_cm\n" ++ "2024-05-01 12:00:00,7.31\n"
        ++ "2024-05-01 12:00:01,-0.00\n" ++ "2024-05-01 12:00:02,inf\n") := by
  obtain ⟨lines, h1, _, h3⟩ := (log_store_lines
    [("2024-05-01 12:00:00", Flt.fin (117 / 16)), ("2024-05-01 12:00:01", Flt.negzero),
      ("2024-05-01 12:00:02", Flt.inf false)]).1 true
  rw [h1, h3]
  decide!

/-! ## Mode selection (C7) -/

/-- C7. If the mode selection does not parse as an integer, or parses to an
integer other than 1 or 2, the program exits with status 1 without entering
either loop: no input entry is read, no random number drawn, no timestamp
taken, nothing slept, no reading classified, rendered or logged (the trace and,
past startup, the log file are untouched), and standard output holds only the
banner, followed by the invalid-choice message when an integer was parsed. -/
theorem invalid_mode_exits (fuel : ℕ) (created : Bool) (mode : Option ℤ) (s : State)
    (h1 : mode ≠ some 1) (h2 : mode ≠ some 2) :
    ∃ s1, main fuel created mode s = Outcome.exit 1 s1 ∧
      s1.stdin = s.stdin ∧ s1.rand = s.rand ∧ s1.clock = s.clock ∧
      s1.slept = s.slept ∧ s1.trace = s.trace ∧ s1.fopen_a = s.fopen_a ∧
      s1.log = init_log s.fopen_r created s.log ∧
      s1.stdout = s.stdout ++ banner
        ++ (if mode = none then "" else "Invalid choice. Exiting.\n") ∧
      s1.stderr = s.stderr
        ++ (if mode = none then "Invalid input. Exiting.\n" else "") := by
  cases mode with
  | none =>
    refine ⟨_, rfl, rfl, rfl, rfl, rfl, rfl, rfl, rfl, ?_, ?_⟩
    · simp [State.print]
    · simp [State.print]
  | some m =>
    have hm1 : m ≠ 1 := fun h => h1 (by rw [h])
    have hm2 : m ≠ 2 := fun h => h2 (by rw [h])
    refine ⟨State.print (State.print { s with log := init_log s.fopen_r created s.log } banner)
      "Invalid choice. Exiting.\n", ?_, rfl, rfl, rfl, rfl, rfl, rfl, rfl, ?_, ?_⟩
    · simp only [main, hm1, hm2, if_false]
    · simp [State.print]
    · simp [State.print]

/-- C7 at the mode 3 and at an unparsable mode, on the example state. -/
theorem invalid_mode_exits_witness :
    (∃ s1, main 5 true (some 3) demo_state = Outcome.exit 1 s1 ∧
      s1.stdin = demo_state.stdin ∧ s1.trace = [] ∧ s1.log = some log_header) ∧
    (∃ s1, main 5 true none demo_state = Outcome.exit 1 s1 ∧
      s1.stdin = demo_state.stdin ∧ s1.trace = [] ∧ s1.log = some log_header) := by
  constructor
  · obtain ⟨s1, h, hin, _, _, _, htr, _, hlog, _⟩ :=
      invalid_mode_exits 5 true (some 3) demo_state (by decide) (by decide)
    exact ⟨s1, h, hin, htr, hlog⟩
  · obtain ⟨s1, h, hin, _, _, _, htr, _, hlog, _⟩ :=
      invalid_mode_exits 5 true none demo_state (by decide) (by decide)
    exact ⟨s1, h, hin, htr, hlog⟩

/-! ## Failing opens (C8) -/

theorem manual_loop_same_session :
    ∀ (fuel : ℕ) (s1 s2 : State), same_session s1 s2 →
      Outcome.same_session (while_loop manual_step finish fuel s1)
        (while_loop manual_step finish fuel s2) := by
  intro fuel
  induction fuel with
  | zero =>
    intro s1 s2 h
    exact h
  | succ fuel ih =>
    intro s1 s2 h
    obtain ⟨hin, hout, hclock, hrand, hslept, htrace⟩ := h
    rcases hstd : s1.stdin with _ | ⟨e, rest⟩
    · have hstd2 : s2.stdin = [] := by rw [← hin, hstd]
      simp only [while_loop, manual_step_eof s1 hstd, manual_step_eof s2 hstd2]
      apply ih
      exact ⟨hin, by simp [hout], hclock, hrand, hslept, htrace⟩
    · have hstd2 : s2.stdin = e :: rest := by rw [← hin, hstd]
      cases e with
      | junk =>
        simp only [while_loop, manual_step_junk s1 rest hstd, manual_step_junk s2 rest hstd2]
        apply ih
        exact ⟨rfl, by simp [hout], hclock, hrand, hslept, htrace⟩
      | num d =>
        rcases hd : d.lt 0 with _ | _
        · rcases hf : Flt.filled d with _ | f
          · simp only [while_loop, manual_step_undefined s1 d rest hstd hd hf,
              manual_step_undefined s2 d rest hstd2 hd hf]
            trivial
          · simp only [while_loop, manual_step_reading s1 d rest f hstd hd hf,
              manual_step_reading s2 d rest f hstd2 hd hf]
            apply ih
            exact ⟨rfl, by simp [hout, hclock], by simp [hclock], hrand, hslept,
              by simp [htrace]⟩
        · simp only [while_loop, manual_step_negative s1 d rest hstd hd,
            manual_step_negative s2 d rest hstd2 hd, finish]
          exact ⟨rfl, rfl, by simp [State.print, hout], hclock, hrand, hslept, htrace⟩

/-- C8. When the store cannot be opened for append, log_reading leaves the
store unchanged, writes its warning to standard error and returns. The session
is not affected: two manual runs that differ only in the log file, standard
error and the outcomes of fopen end the same way, with the same exit status,
the same remaining input, the same standard output and the same readings
processed; and whatever the outcomes of fopen, a manual run whose input holds
a negative number (and no NaN before it, on which the run is undefined whatever
fopen does) exits with status 0 after classifying and displaying every expected
reading, the log being what the successive log_reading calls leave. -/
theorem log_failure_not_fatal :
    (∀ (file : Option String) (ts : String) (d : Flt),
      log_reading false file ts d
        = (file, "Warning: could not open log file parking_log.csv for writing.\n")) ∧
    (∀ (fuel : ℕ) (created : Bool) (s1 s2 : State), same_session s1 s2 →
      Outcome.same_session (main fuel created (some 1) s1) (main fuel created (some 1) s2)) ∧
    (∀ (s : State) (created : Bool) (fuel : ℕ),
      (∃ e ∈ s.stdin, Entry.negative e = true) →
      (∀ d ∈ expected_readings s.stdin, Flt.is_nan d = false) →
      s.stdin.length ≤ fuel →
      ∃ s1, main fuel created (some 1) s = Outcome.exit 0 s1 ∧
        s1.trace = s.trace ++ expected_readings s.stdin ∧
        s1.stdout = s.stdout ++ banner
          ++ "Manual mode selected. Enter distance in cm (negative to exit).\n"
          ++ expected_display s.clock s.stdin
          ++ "Simulation ended. Log file: parking_log.csv\n" ∧
        s1.log = append_records s.fopen_a s.clock (init_log s.fopen_r created s.log)
          (expected_readings s.stdin)) := by
  refine ⟨fun _ _ _ => rfl, ?_, ?_⟩
  · intro fuel created s1 s2 h
    obtain ⟨hin, hout, hclock, hrand, hslept, htrace⟩ := h
    simp only [main, if_true]
    apply manual_loop_same_session
    exact ⟨hin, by simp [State.print, hout], hclock, hrand, hslept, htrace⟩
  · intro s created fuel hneg hnan hfuel
    obtain ⟨s1, h1, h2, h3, h4⟩ := manual_loop_run s.stdin
      (State.print (State.print { s with log := init_log s.fopen_r created s.log } banner)
        "Manual mode selected. Enter distance in cm (negative to exit).\n")
      fuel rfl hneg hnan hfuel
    refine ⟨s1, ?_, ?_, ?_, ?_⟩
    · simp only [main, if_true]
      exact h1
    · rw [h2]
      rfl
    · rw [h3]
      rfl
    · rw [h4]
      rfl

/-- C8 on the example state with every fopen failing: the run still exits with
status 0, the reading 30 is still processed and displayed with status STOP, and
the log keeps its header only. -/
theorem log_failure_not_fatal_witness :
    ∃ s1, main 3 true (some 1) { demo_state with fopen_a := fun _ => false }
        = Outcome.exit 0 s1 ∧
      s1.trace = [Flt.fin 30] ∧
      s1.log = some "timestamp,distance_cm\n" ∧
      s1.stdout = banner
        ++ "Manual mode selected. Enter distance in cm (negative to exit).\n"
        ++ "Enter distance (cm): Please enter a number.\n"
        ++ "Enter distance (cm): [2024-05-01 12:00:00] Distance: 30.00 cm -> STOP\n"
        ++ "[######                                  ] \n"
        ++ "Enter distance (cm): Exiting manual mode.\n"
        ++ "Simulation ended. Log file: parking_log.csv\n" := by
  obtain ⟨s1, h1, h2, h3, h4⟩ := log_failure_not_fatal.2.2
    { demo_state with fopen_a := fun _ => false } true 3
    ⟨Entry.num (Flt.fin (-1)), by simp [demo_state], by decide!⟩ (by decide!)
    (by simp [demo_state])
  refine ⟨s1, h1, ?_, ?_, ?_⟩
  · rw [h2]
    decide!
  · rw [h4]
    decide!
  · rw [h3]
    decide!

/-! ## End of input (C10) -/

theorem manual_loop_eof :
    ∀ (fuel : ℕ) (s : State), s.stdin = [] →
      ∃ s1, while_loop manual_step finish fuel s = Outcome.running s1 ∧
        s1.stdin = [] ∧ s1.trace = s.trace ∧ s1.log = s.log := by
  intro fuel
  induction fuel with
  | zero =>
    intro s h
    exact ⟨s, rfl, h, rfl, rfl⟩
  | succ fuel ih =>
    intro s h
    obtain ⟨s1, h1, h2, h3, h4⟩ := ih
      { s with stdout := s.stdout ++ "Enter distance (cm): " ++ "Please enter a number.\n" } h
    refine ⟨s1, ?_, h2, h3, h4⟩
    simp only [while_loop, manual_step_eof s h]
    exact h1

theorem manual_loop_no_negative (entries : List Entry) :
    ∀ (fuel : ℕ) (s : State), s.stdin = entries →
      (∀ e ∈ entries, Entry.negative e = false) →
      (∀ d, Entry.num d ∈ entries → Flt.is_nan d = false) →
      ∃ s1, while_loop manual_step finish fuel s = Outcome.running s1 := by
  induction entries with
  | nil =>
    intro fuel s h _ _
    obtain ⟨s1, h1, _⟩ := manual_loop_eof fuel s h
    exact ⟨s1, h1⟩
  | cons e es ih =>
    intro fuel s h hall hnan
    cases fuel with
    | zero => exact ⟨s, rfl⟩
    | succ fuel =>
      have hes : ∀ e ∈ es, Entry.negative e = false :=
        fun x hx => hall x (List.mem_cons_of_mem e hx)
      have hnes : ∀ d, Entry.num d ∈ es → Flt.is_nan d = false :=
        fun d hd => hnan d (List.mem_cons_of_mem e hd)
      cases e with
      | junk =>
        obtain ⟨s1, h1⟩ := ih fuel
          { s with
            stdin := es
            stdout := s.stdout ++ "Enter distance (cm): " ++ "Please enter a number.\n" }
          rfl hes hnes
        refine ⟨s1, ?_⟩
        simp only [while_loop, manual_step_junk s es h]
        exact h1
      | num d =>
        have hd0 : d.lt 0 = false := by
          have := hall (Entry.num d) (List.mem_cons_self _ _)
          simpa [Entry.negative] using this
        obtain ⟨f, hf, _, _⟩ := flt_filled_bounds hd0 (hnan d (List.mem_cons_self _ _))
        obtain ⟨s1, h1⟩ := ih fuel
          { s with
            stdin := es
            stdout := s.stdout ++ "Enter distance (cm): "
              ++ reading_line (s.clock 0) d (Flt.classify_distance d)
              ++ expected_bar f
            log := (log_reading (s.fopen_a 0) s.log (s.clock 0) d).1
            stderr := s.stderr ++ (log_reading (s.fopen_a 0) s.log (s.clock 0) d).2
            clock := drop_stream 1 s.clock
            fopen_a := drop_stream 1 s.fopen_a
            trace := s.trace ++ [d] }
          rfl hes hnes
        refine ⟨s1, ?_⟩
        simp only [while_loop, manual_step_reading s d es f h hd0 hf]
        exact h1

theorem manual_loop_never_exits (entries : List Entry) :
    ∀ (fuel : ℕ) (s : State), s.stdin = entries →
      (∀ e ∈ entries, Entry.negative e = false) →
      ∀ (status : ℤ) (s1 : State),
        while_loop manual_step finish fuel s ≠ Outcome.exit status s1 := by
  induction entries with
  | nil =>
    intro fuel s h _ status s1 hc
    obtain ⟨s2, h2, _⟩ := manual_loop_eof fuel s h
    rw [h2] at hc
    exact Outcome.noConfusion hc
  | cons e es ih =>
    intro fuel s h hall status s1
    cases fuel with
    | zero =>
      intro hc
      exact Outcome.noConfusion hc
    | succ fuel =>
      have hes : ∀ e ∈ es, Entry.negative e = false :=
        fun x hx => hall x (List.mem_cons_of_mem e hx)
      cases e with
      | junk =>
        simp only [while_loop, manual_step_junk s es h]
        exact ih fuel _ rfl hes status s1
      | num d =>
        have hd0 : d.lt 0 = false := by
          have := hall (Entry.num d) (List.mem_cons_self _ _)
          simpa [Entry.negative] using this
        rcases hf : Flt.filled d with _ | f
        · simp only [while_loop, manual_step_undefined s d es h hd0 hf]
          intro hc
          exact Outcome.noConfusion hc
        · simp only [while_loop, manual_step_reading s d es f h hd0 hf]
          exact ih fuel _ rfl hes status s1

/-- C10. In manual mode end of input is treated like a non-numeric entry and
never ends the loop. At end of input one pass of the loop prints the prompt
and the request for a number and goes on with the input still exhausted, no
reading processed and the log untouched; from there the loop is still running
after any number of passes; a manual run whose input holds no negative number
(and no NaN) is still running after any number of passes; and no manual run
whose input holds no negative number ever exits. -/
theorem manual_eof_never_exits :
    (∀ s : State, s.stdin = [] →
      manual_step s = Step.next
        { s with stdout := s.stdout ++ "Enter distance (cm): " ++ "Please enter a number.\n" }) ∧
    (∀ (fuel : ℕ) (s : State), s.stdin = [] →
      ∃ s1, while_loop manual_step finish fuel s = Outcome.running s1 ∧
        s1.stdin = [] ∧ s1.trace = s.trace ∧ s1.log = s.log) ∧
    (∀ (fuel : ℕ) (created : Bool) (s : State),
      (∀ e ∈ s.stdin, Entry.negative e = false) →
      (∀ d, Entry.num d ∈ s.stdin → Flt.is_nan d = false) →
      ∃ s1, main fuel created (some 1) s = Outcome.running s1) ∧
    (∀ (fuel : ℕ) (created : Bool) (s : State),
      (∀ e ∈ s.stdin, Entry.negative e = false) →
      ∀ (status : ℤ) (s1 : State),
        main fuel created (some 1) s ≠ Outcome.exit status s1) := by
  refine ⟨manual_step_eof, manual_loop_eof, ?_, ?_⟩
  · intro fuel created s hall hnan
    simp only [main, if_true]
    exact manual_loop_no_negative s.stdin fuel _ rfl hall hnan
  · intro fuel created s hall status s1
    simp only [main, if_true]
    exact manual_loop_never_exits s.stdin fuel
      (State.print (State.print { s with log := init_log s.fopen_r created s.log } banner)
        "Manual mode selected. Enter distance in cm (negative to exit).\n")
      rfl hall status s1

/-- C10 on the example input cut before its negative entry ("abc", "30"): after
100 passes the program is still running. -/
theorem manual_eof_never_exits_witness :
    ∃ s1, main 100 true (some 1)
      { demo_state with stdin := [Entry.junk, Entry.num (Flt.fin 30)] } = Outcome.running s1 :=
  manual_eof_never_exits.2.2.1 100 true _ (by decide!)
    (fun d hd => by
      simp at hd
      rw [hd]
      rfl)

theorem manual_loop_defined (entries : List Entry) :
    ∀ (fuel : ℕ) (s : State), s.stdin = entries →
      (∀ d, Entry.num d ∈ entries → Flt.is_nan d = false) →
      while_loop manual_step finish fuel s ≠ Outcome.undefined := by
  induction entries with
  | nil =>
    intro fuel s h _ hc
    obtain ⟨s2, h2, _⟩ := manual_loop_eof fuel s h
    rw [h2] at hc
    exact Outcome.noConfusion hc
  | cons e es ih =>
    intro fuel s h hnan
    cases fuel with
    | zero =>
      intro hc
      exact Outcome.noConfusion hc
    | succ fuel =>
      have hnes : ∀ d, Entry.num d ∈ es → Flt.is_nan d = false :=
        fun d hd => hnan d (List.mem_cons_of_mem e hd)
      cases e with
      | junk =>
        simp only [while_loop, manual_step_junk s es h]
        exact ih fuel _ rfl hnes
      | num d =>
        rcases hd : d.lt 0 with _ | _
        · obtain ⟨f, hf, _, _⟩ := flt_filled_bounds hd (hnan d (List.mem_cons_self _ _))
          simp only [while_loop, manual_step_reading s d es f h hd hf]
          exact ih fuel _ rfl hnes
        · simp only [while_loop, manual_step_negative s d es h hd, finish]
          intro hc
          exact Outcome.noConfusion hc

/-! ## No negative reading (C9) -/

theorem flt_of_int_natCast (n : ℕ) (h : n < 2 ^ 24) :
    Flt.of_int ((n : ℕ) : ℤ) = Flt.fin (n : ℚ) := by
  have hr : F32.round (n : ℚ) = (n : ℚ) := F32.round_natCast n h
  have hneg : decide (((n : ℕ) : ℤ) < 0) = false := by simp
  have hsmall : ¬ ((340282366920938463463374607431768211456 : ℚ) ≤ |(n : ℚ)|) := by
    rw [abs_of_nonneg (Nat.cast_nonneg n), not_le]
    have : (n : ℚ) < 16777216 := by exact_mod_cast h
    linarith
  unfold Flt.of_int Flt.result
  simp only [Int.cast_natCast, hr, hneg, if_neg hsmall, Bool.false_eq_true, if_false]
  split_ifs with h0
  · rw [h0]
  · rfl

theorem generate_eq (rand : ℕ → ℕ) :
    generate rand = if rand 1 % 10 < 3 then (Flt.fin ((rand 2 % 80 : ℕ) : ℚ), 3)
      else (Flt.fin ((rand 0 % 241 + 10 : ℕ) : ℚ), 2) := by
  have h1 := flt_of_int_natCast (rand 2 % 80) (by omega)
  have h2 := flt_of_int_natCast (rand 0 % 241 + 10) (by omega)
  unfold generate
  simp only [h1, h2]

theorem generate_valid (rand : ℕ → ℕ) :
    (generate rand).1.lt 0 = false ∧ (generate rand).1.is_nan = false := by
  rw [generate_eq]
  split_ifs
  · exact ⟨by simp [Flt.lt], rfl⟩
  · refine ⟨?_, rfl⟩
    have : (0 : ℚ) ≤ ((rand 0 % 241 + 10 : ℕ) : ℚ) := Nat.cast_nonneg _
    simpa [Flt.lt] using this

theorem flt_filled_not_nan {d : Flt} {f : ℤ} (h : Flt.filled d = some f) :
    d.is_nan = false := by
  cases d with
  | nan neg =>
    rw [flt_filled_nan] at h
    exact Option.noConfusion h
  | fin q => rfl
  | negzero => rfl
  | inf neg => rfl

theorem while_loop_trace_valid (body : State → Step)
    (hbody : ∀ s s1 : State, (∀ d ∈ s.trace, Flt.lt d 0 = false ∧ Flt.is_nan d = false) →
      (body s = Step.next s1 ∨ body s = Step.leave s1) →
      ∀ d ∈ s1.trace, Flt.lt d 0 = false ∧ Flt.is_nan d = false) :
    ∀ (fuel : ℕ) (s s1 : State),
      (∀ d ∈ s.trace, Flt.lt d 0 = false ∧ Flt.is_nan d = false) →
      (while_loop body finish fuel s).state = some s1 →
      ∀ d ∈ s1.trace, Flt.lt d 0 = false ∧ Flt.is_nan d = false := by
  intro fuel
  induction fuel with
  | zero =>
    intro s s1 h hs
    have : s = s1 := Option.some.inj hs
    rw [← this]
    exact h
  | succ fuel ih =>
    intro s s1 h hs
    rcases hb : body s with s2 | s2 | _
    · simp only [while_loop, hb] at hs
      exact ih s2 s1 (hbody s s2 h (Or.inl hb)) hs
    · simp only [while_loop, hb, finish, Outcome.state] at hs
      have : State.print s2 "Simulation ended. Log file: parking_log.csv\n" = s1 :=
        Option.some.inj hs
      rw [← this]
      exact hbody s s2 h (Or.inr hb)
    · simp only [while_loop, hb, Outcome.state] at hs
      exact Option.noConfusion hs

theorem manual_step_trace_valid (s s1 : State)
    (h : ∀ d ∈ s.trace, Flt.lt d 0 = false ∧ Flt.is_nan d = false)
    (hs : manual_step s = Step.next s1 ∨ manual_step s = Step.leave s1) :
    ∀ d ∈ s1.trace, Flt.lt d 0 = false ∧ Flt.is_nan d = false := by
  rcases hstd : s.stdin with _ | ⟨e, rest⟩
  · rw [manual_step_eof s hstd] at hs
    rcases hs with hs | hs
    · rw [← Step.next.inj hs]
      exact h
    · exact Step.noConfusion hs
  · cases e with
    | junk =>
      rw [manual_step_junk s rest hstd] at hs
      rcases hs with hs | hs
      · rw [← Step.next.inj hs]
        exact h
      · exact Step.noConfusion hs
    | num d =>
      rcases hd : d.lt 0 with _ | _
      · rcases hf : Flt.filled d with _ | f
        · rw [manual_step_undefined s d rest hstd hd hf] at hs
          rcases hs with hs | hs <;> exact Step.noConfusion hs
        · rw [manual_step_reading s d rest f hstd hd hf] at hs
          rcases hs with hs | hs
          · rw [← Step.next.inj hs]
            intro x hx
            simp only [List.mem_append, List.mem_singleton] at hx
            rcases hx with hx | hx
            · exact h x hx
            · rw [hx]
              exact ⟨hd, flt_filled_not_nan hf⟩
          · exact Step.noConfusion hs
      · rw [manual_step_negative s d rest hstd hd] at hs
        rcases hs with hs | hs
        · exact Step.noConfusion hs
        · rw [← Step.leave.inj hs]
          exact h

theorem auto_step_next (s : State) :
    ∃ s1, auto_step s = Step.next s1 ∧ s1.trace = s.trace ++ [(generate s.rand).1] := by
  obtain ⟨hlt, hnan⟩ := generate_valid s.rand
  obtain ⟨f, hf, _, _⟩ := flt_filled_bounds hlt hnan
  unfold auto_step
  simp only [process_reading_defined _ hf]
  exact ⟨_, rfl, rfl⟩

theorem auto_step_trace_valid (s s1 : State)
    (h : ∀ d ∈ s.trace, Flt.lt d 0 = false ∧ Flt.is_nan d = false)
    (hs : auto_step s = Step.next s1 ∨ auto_step s = Step.leave s1) :
    ∀ d ∈ s1.trace, Flt.lt d 0 = false ∧ Flt.is_nan d = false := by
  obtain ⟨s2, h2, htr⟩ := auto_step_next s
  rw [h2] at hs
  rcases hs with hs | hs
  · rw [← Step.next.inj hs, htr]
    intro x hx
    simp only [List.mem_append, List.mem_singleton] at hx
    rcases hx with hx | hx
    · exact h x hx
    · rw [hx]
      exact generate_valid s.rand
  · exact Step.noConfusion hs

theorem auto_loop_defined :
    ∀ (fuel : ℕ) (s : State), ∃ s1, while_loop auto_step finish fuel s = Outcome.running s1 := by
  intro fuel
  induction fuel with
  | zero =>
    intro s
    exact ⟨s, rfl⟩
  | succ fuel ih =>
    intro s
    obtain ⟨s2, h2, _⟩ := auto_step_next s
    obtain ⟨s1, h1⟩ := ih s2
    exact ⟨s1, by simp only [while_loop, h2]; exact h1⟩

/-- C9, counterexample. In manual mode the entry "nan" is not negative, so the
loop does not leave on it: it reaches the classifier (status SAFE) and the
renderer, where its fill count, the conversion of a NaN to int, is undefined
and so does not lie in [0, 40]; the run is undefined from there. -/
theorem no_negative_reading_counterexample :
    (Flt.nan false).lt 0 = false ∧
    Flt.classify_distance (Flt.nan false) = "SAFE" ∧
    Flt.filled (Flt.nan false) = none ∧
    (¬ ∃ f, Flt.filled (Flt.nan false) = some f ∧ 0 ≤ f ∧ f ≤ 40) ∧
    main 1 true (some 1) { demo_state with stdin := [Entry.num (Flt.nan false)] }
      = Outcome.undefined := by
  refine ⟨rfl, by decide, rfl, ?_, ?_⟩
  · rintro ⟨f, hf, _⟩
    rw [flt_filled_nan] at hf
    exact Option.noConfusion hf
  · simp only [main, if_true, while_loop]
    rw [manual_step_undefined _ (Flt.nan false) [] rfl rfl rfl]

/-- C9, amended. In both modes no negative distance reaches the classifier, the
renderer or the logger. Manual mode leaves the loop on a negative entry without
processing it. In automatic mode, for all generator outputs, the generated
distance is the whole number r3 mod 80, in [0, 79], when r2 mod 10 < 3, and
otherwise (r1 mod 241) + 10, in [10, 250]; the automatic run is defined after
any number of passes. Hence in either mode, in every state a run reaches, every
reading processed is not negative and not NaN, has a status other than INVALID
and a fill count in [0, 40]; and a manual run whose input holds no NaN is
defined after any number of passes. -/
theorem no_negative_reading :
    (∀ (s : State) (d : Flt) (rest : List Entry), s.stdin = Entry.num d :: rest →
      d.lt 0 = true →
      ∃ s1, manual_step s = Step.leave s1 ∧ s1.trace = s.trace ∧ s1.log = s.log) ∧
    (∀ rand : ℕ → ℕ,
      (rand 1 % 10 < 3 → generate rand = (Flt.fin ((rand 2 % 80 : ℕ) : ℚ), 3)) ∧
      (¬ rand 1 % 10 < 3 → generate rand = (Flt.fin ((rand 0 % 241 + 10 : ℕ) : ℚ), 2)) ∧
      rand 2 % 80 ≤ 79 ∧ 10 ≤ rand 0 % 241 + 10 ∧ rand 0 % 241 + 10 ≤ 250) ∧
    (∀ (fuel : ℕ) (created : Bool) (mode : Option ℤ) (s s1 : State),
      (mode = some 1 ∨ mode = some 2) →
      (∀ d ∈ s.trace, Flt.lt d 0 = false ∧ Flt.is_nan d = false) →
      (main fuel created mode s).state = some s1 →
      ∀ d ∈ s1.trace, Flt.lt d 0 = false ∧ Flt.is_nan d = false ∧
        Flt.classify_distance d ≠ "INVALID" ∧
        ∃ f, Flt.filled d = some f ∧ 0 ≤ f ∧ f ≤ 40) ∧
    (∀ (fuel : ℕ) (created : Bool) (s : State),
      ∃ s1, main fuel created (some 2) s = Outcome.running s1) ∧
    (∀ (fuel : ℕ) (created : Bool) (s : State),
      (∀ d, Entry.num d ∈ s.stdin → Flt.is_nan d = false) →
      main fuel created (some 1) s ≠ Outcome.undefined) := by
  refine ⟨?_, ?_, ?_, ?_, ?_⟩
  · intro s d rest hs hd
    exact ⟨_, manual_step_negative s d rest hs hd, rfl, rfl⟩
  · intro rand
    refine ⟨fun h => ?_, fun h => ?_, by omega, by omega, by omega⟩
    · rw [generate_eq, if_pos h]
    · rw [generate_eq, if_neg h]
  · intro fuel created mode s s1 hmode htrace hstate
    have key : ∀ d ∈ s1.trace, Flt.lt d 0 = false ∧ Flt.is_nan d = false := by
      rcases hmode with rfl | rfl
      · simp only [main, if_true] at hstate
        exact while_loop_trace_valid manual_step manual_step_trace_valid fuel
          (State.print (State.print { s with log := init_log s.fopen_r created s.log } banner)
            "Manual mode selected. Enter distance in cm (negative to exit).\n")
          s1 htrace hstate
      · have h21 : ¬ ((2 : ℤ) = 1) := by decide
        simp only [main, h21, if_false, if_true] at hstate
        exact while_loop_trace_valid auto_step auto_step_trace_valid fuel
          (State.print (State.print { s with log := init_log s.fopen_r created s.log } banner)
            "Automatic simulation mode. Press Ctrl+C to stop.\n")
          s1 htrace hstate
    intro d hd
    obtain ⟨h1, h2⟩ := key d hd
    exact ⟨h1, h2, flt_classify_distance_valid h1, flt_filled_bounds h1 h2⟩
  · intro fuel created s
    have h21 : ¬ ((2 : ℤ) = 1) := by decide
    simp only [main, h21, if_false, if_true]
    exact auto_loop_defined fuel _
  · intro fuel created s hnan
    simp only [main, if_true]
    exact manual_loop_defined s.stdin fuel _ rfl hnan

/-- C9, amended, on the example state in automatic mode: after 4 passes the run
is defined, its readings are 17, 38, 59 (three dips) and 76, and each of them is
not negative, not NaN, not INVALID, with a fill count in [0, 40]. -/
theorem no_negative_reading_witness :
    ∃ s1, (main 4 true (some 2) demo_state).state = some s1 ∧
      s1.trace = [Flt.fin 17, Flt.fin 38, Flt.fin 59, Flt.fin 76] ∧
      ∀ d ∈ s1.trace, Flt.lt d 0 = false ∧ Flt.is_nan d = false ∧
        Flt.classify_distance d ≠ "INVALID" ∧
        ∃ f, Flt.filled d = some f ∧ 0 ≤ f ∧ f ≤ 40 := by
  obtain ⟨s1, h1⟩ := no_negative_reading.2.2.2.1 4 true demo_state
  have hst : (main 4 true (some 2) demo_state).state = some s1 := by
    rw [h1]
    rfl
  have h3 : (main 4 true (some 2) demo_state).state.map State.trace
      = some [Flt.fin 17, Flt.fin 38, Flt.fin 59, Flt.fin 76] := by
    decide!
  have h2 := no_negative_reading.2.2.1 4 true (some 2) demo_state s1 (Or.inr rfl)
    (by simp [demo_state]) hst
  rw [hst] at h3
  exact ⟨s1, hst, Option.some.inj h3, h2⟩

end ParkingAssist
